import Mathlib

/-!
Shallow embedding of the pr-reviewer-service core (Go): the relational data
model (teams, users, pull requests, reviewer rows), the repository queries,
and the four transactional service operations (CreatePR, MergePR,
ReassignReviewer, DeactivateTeam) plus CreateTeamWithUsers.

Modelling conventions:
* a database is a record of row lists; SQL reads are filters over those lists;
* randomness (rand.Intn) is an oracle rng : Nat -> Nat, sampled modulo the
  argument that Go passes to Intn, so every theorem holds for every oracle;
* each transactional operation returns (DB, Except AppError result); on error
  the first component is the input state (the Go code rolls the transaction
  back, so no partial write persists);
* row locks (FOR UPDATE) serialize concurrent transactions; in this
  single-operation model a locked read is an ordinary read;
* repository methods that receive the transaction (tx) read transaction-local
  state; methods that query the connection pool (r.db) read the state
  committed before the transaction began.  This matters only in the
  deactivation cascade, where the users table is written in-transaction while
  GetRandomActiveReviewers reads it through the pool.
-/

namespace PRReviewer

/-- Pull request status, api.PullRequestStatus ("OPEN" / "MERGED"). -/
inductive PRStatus
  | OPEN
  | MERGED
deriving DecidableEq, Repr

/-- domain.User row of the users table. -/
structure User where
  id : String
  username : String
  teamId : Nat
  isActive : Bool
deriving DecidableEq, Repr

/-- domain.Team row of the teams table; id is the surrogate serial key. -/
structure Team where
  id : Nat
  name : String
deriving DecidableEq, Repr

/-- domain.PullRequest row; reviewerIDs mirrors the in-memory field that is
populated from the reviewers table, not a column of pull_requests. -/
structure PullRequest where
  id : String
  name : String
  authorId : String
  status : PRStatus
  needMoreReviewers : Bool
  createdAt : Nat
  mergedAt : Option Nat
  reviewerIDs : List String := []
deriving DecidableEq, Repr

/-- domain.Reviewer row of the reviewers association table. -/
structure Reviewer where
  pullRequestId : String
  userId : String
deriving DecidableEq, Repr

/-- api.TeamMember: a member listed in a CreateTeamWithUsers request. -/
structure TeamMember where
  userId : String
  username : String
  isActive : Bool
deriving DecidableEq, Repr

/-- The database: one list of rows per table, plus the serial sequence that
backs teams.id. -/
structure DB where
  teams : List Team
  users : List User
  prs : List PullRequest
  reviewers : List Reviewer
  nextTeamId : Nat := 1
deriving DecidableEq, Repr

/-- Error kinds of internal/apperrors. -/
inductive AppError
  | notFound
  | alreadyExists
  | prMerged
  | reviewerNotAssigned
  | noCandidate
deriving DecidableEq, Repr

/-! Repository reads. -/

/-- GetReviewerIDs: SELECT user_id FROM reviewers WHERE pull_request_id = prID. -/
def getReviewerIDs (db : DB) (prID : String) : List String :=
  (db.reviewers.filter (fun r => r.pullRequestId == prID)).map Reviewer.userId

/-- GetPRByID: SELECT ... FROM pull_requests WHERE id = prID. -/
def getPRByID (db : DB) (prID : String) : Option PullRequest :=
  db.prs.find? (fun pr => pr.id == prID)

/-- GetPRByIDWithLock: the same SELECT with FOR UPDATE; the lock only
serializes concurrent transactions, so in this model it is the same read. -/
def getPRByIDWithLock (db : DB) (prID : String) : Option PullRequest :=
  db.prs.find? (fun pr => pr.id == prID)

/-- GetAuthorTeamID / GetReviewerTeamID: SELECT team_id FROM users WHERE id = userID
(the two Go methods run the identical query). -/
def getUserTeamID (db : DB) (userID : String) : Option Nat :=
  (db.users.find? (fun u => u.id == userID)).map User.teamId

/-- GetTeamByName: SELECT id, name FROM teams WHERE name = name (the members
query of the Go method is not needed by the operations modelled here). -/
def getTeamByName (db : DB) (name : String) : Option Team :=
  db.teams.find? (fun t => t.name == name)

/-! Random reviewer selection (GetRandomActiveReviewers). -/

/-- The candidate pool: users with team_id = teamID AND is_active = true AND
id NOT IN excludeUserIDs (when the exclusion list is empty the Go code omits
the NOT IN clause, which filters nothing). -/
def eligiblePool (db : DB) (teamID : Nat) (excludeUserIDs : List String) : List String :=
  (db.users.filter
    (fun u => u.teamId == teamID && u.isActive && !(excludeUserIDs.contains u.id))).map User.id

/-- One Go swap statement a[i], a[j] = a[j], a[i] on a string slice. -/
def listSwap (l : List String) (i j : Nat) : List String :=
  (l.set i (l.getD j "")).set j (l.getD i "")

/-- The selection loop of GetRandomActiveReviewers: for i in [0, fuel) it
draws idx := rand.Intn(len(arr)-i) + i, swaps positions i and idx, and emits
the element now at position i.  rand.Intn n is modelled as rng i % n. -/
def fisherYatesTake (rng : Nat → Nat) : List String → Nat → Nat → List String
  | _, _, 0 => []
  | arr, i, fuel + 1 =>
    let idx := rng i % (arr.length - i) + i
    let arr1 := listSwap arr i idx
    arr1.getD i "" :: fisherYatesTake rng arr1 (i + 1) fuel

/-- GetRandomActiveReviewers: returns [] on an empty pool, the whole pool when
it has at most cnt members, and otherwise cnt elements drawn by the selection
loop. -/
def getRandomActiveReviewers (db : DB) (teamID : Nat) (excludeUserIDs : List String)
    (cnt : Nat) (rng : Nat → Nat) : List String :=
  let allCandidateIDs := eligiblePool db teamID excludeUserIDs
  let numCandidates := allCandidateIDs.length
  if numCandidates = 0 then []
  else if numCandidates ≤ cnt then allCandidateIDs
  else fisherYatesTake rng allCandidateIDs 0 cnt

/-! Repository writes. -/

/-- AssignReviewers: INSERT INTO reviewers (pull_request_id, user_id) VALUES ... -/
def assignReviewers (db : DB) (prID : String) (reviewerIDs : List String) : DB :=
  { db with reviewers := db.reviewers ++ reviewerIDs.map (fun x => ⟨prID, x⟩) }

/-- ReplaceReviewer: DELETE FROM reviewers WHERE pull_request_id = prID AND
user_id = oldID, then INSERT the (prID, newID) row. -/
def replaceReviewer (db : DB) (prID oldID newID : String) : DB :=
  { db with reviewers :=
      (db.reviewers.filter (fun r => !(r.pullRequestId == prID && r.userId == oldID)))
        ++ [⟨prID, newID⟩] }

/-- The row change of UpdatePRStatus: SET status = status and, when the new
status is MERGED, also merged_at = mergedAt and need_more_reviewers = false,
on the row whose id is prID. -/
def applyStatus (prID : String) (status : PRStatus) (mergedAt : Nat)
    (pr : PullRequest) : PullRequest :=
  if pr.id == prID then
    if status == PRStatus.MERGED then
      { pr with status := status, mergedAt := some mergedAt, needMoreReviewers := false }
    else
      { pr with status := status }
  else pr

/-- UpdatePRStatus: the UPDATE above; errors with NotFound when no row was
affected. -/
def updatePRStatus (db : DB) (prID : String) (status : PRStatus) (mergedAt : Nat) :
    Except AppError DB :=
  if db.prs.any (fun pr => pr.id == prID) then
    Except.ok { db with prs := db.prs.map (applyStatus prID status mergedAt) }
  else
    Except.error AppError.notFound

/-! The pull request service. -/

/-- excludeIDs of the PR service: the set {PR author} together with all
current reviewers.  Go materializes it through a map (set) whose iteration
order is unspecified; only membership is consumed downstream, and dedup keeps
that membership. -/
def excludeIDs (pr : PullRequest) (currentReviewerIDs : List String) : List String :=
  (currentReviewerIDs ++ [pr.authorId]).dedup

/-- CreatePR: resolve the author's team and pick up to 2 reviewers excluding
the author (both reads run before the transaction, on pool connections), then
in one transaction insert the PR row with need_more_reviewers = (selected < 2)
and the reviewer rows.  The id-collision check is the unique-key violation of
the insert; the author foreign key cannot fire here because the author lookup
already succeeded and this model runs one operation at a time. -/
def createPR (db : DB) (prID prName authorID : String) (now : Nat) (rng : Nat → Nat) :
    DB × Except AppError PullRequest :=
  match getUserTeamID db authorID with
  | none => (db, Except.error AppError.notFound)
  | some teamID =>
    let reviewerIDs := getRandomActiveReviewers db teamID [authorID] 2 rng
    let pr : PullRequest :=
      { id := prID, name := prName, authorId := authorID, status := PRStatus.OPEN,
        needMoreReviewers := decide (reviewerIDs.length < 2), createdAt := now,
        mergedAt := none, reviewerIDs := [] }
    if db.prs.any (fun p => p.id == prID) then
      (db, Except.error AppError.alreadyExists)
    else
      let db1 := { db with prs := db.prs ++ [pr] }
      let db2 := if reviewerIDs.length > 0 then assignReviewers db1 prID reviewerIDs else db1
      (db2, Except.ok { pr with reviewerIDs := reviewerIDs })

/-- MergePR: lock the PR row (NotFound if absent); if not yet MERGED, set
status = MERGED, stamp merged_at and clear need_more_reviewers; fetch the
reviewer ids; commit.  The returned value reuses the fetched row, only
updating status and merged_at when the merge happened now. -/
def mergePR (db : DB) (prID : String) (now : Nat) : DB × Except AppError PullRequest :=
  match getPRByIDWithLock db prID with
  | none => (db, Except.error AppError.notFound)
  | some pr =>
    match (if pr.status ≠ PRStatus.MERGED then updatePRStatus db prID PRStatus.MERGED now
           else Except.ok db) with
    | Except.error e => (db, Except.error e)
    | Except.ok db1 =>
      let reviewerIDs := getReviewerIDs db1 prID
      let result :=
        if pr.status = PRStatus.MERGED then pr
        else { pr with status := PRStatus.MERGED, mergedAt := some now }
      (db1, Except.ok { result with reviewerIDs := reviewerIDs })

/-- validateAndFindReplacement: locked PR read (NotFound if absent), PRMerged
on a MERGED row, ReviewerNotAssigned when oldReviewerID is not a current
reviewer, then resolve the old reviewer's team and draw 1 candidate from it
excluding {author} ∪ {current reviewers}; NoCandidate when none is found. -/
def validateAndFindReplacement (db : DB) (prID oldReviewerID : String) (rng : Nat → Nat) :
    Except AppError (String × PullRequest) :=
  match getPRByIDWithLock db prID with
  | none => Except.error AppError.notFound
  | some pr =>
    if pr.status = PRStatus.MERGED then Except.error AppError.prMerged
    else
      let currentReviewerIDs := getReviewerIDs db prID
      if oldReviewerID ∈ currentReviewerIDs then
        match getUserTeamID db oldReviewerID with
        | none => Except.error AppError.notFound
        | some teamID =>
          match getRandomActiveReviewers db teamID (excludeIDs pr currentReviewerIDs) 1 rng with
          | [] => Except.error AppError.noCandidate
          | c :: _ => Except.ok (c, pr)
      else Except.error AppError.reviewerNotAssigned

/-- ReassignReviewer: validate and pick the replacement, delete the old
reviewer row and insert the new one, re-read the reviewer list; all inside one
transaction, so any error leaves the state untouched. -/
def reassignReviewer (db : DB) (prID oldReviewerID : String) (rng : Nat → Nat) :
    DB × Except AppError (PullRequest × String × List String) :=
  match validateAndFindReplacement db prID oldReviewerID rng with
  | Except.error e => (db, Except.error e)
  | Except.ok (newReviewerID, pr) =>
    let db1 := replaceReviewer db prID oldReviewerID newReviewerID
    (db1, Except.ok (pr, newReviewerID, getReviewerIDs db1 prID))

/-! The team deactivation cascade (user service). -/

/-- The ids RETURNING id of DeactivateUsersByTeamID reports: all users of the
team that are currently active. -/
def activeTeamUserIDs (db : DB) (teamID : Nat) : List String :=
  (db.users.filter (fun u => u.teamId == teamID && u.isActive)).map User.id

/-- DeactivateUsersByTeamID: UPDATE users SET is_active = false WHERE team_id
= teamID AND is_active = true RETURNING id. -/
def deactivateUsersByTeamID (db : DB) (teamID : Nat) : DB × List String :=
  ({ db with users := db.users.map (fun u =>
      if u.teamId == teamID && u.isActive then { u with isActive := false } else u) },
   activeTeamUserIDs db teamID)

/-- The first query of GetOpenPRsByReviewers: SELECT DISTINCT pull_request_id
FROM reviewers JOIN pull_requests pr ON pr.id = pull_request_id WHERE user_id
IN userIDs AND pr.status = OPEN. -/
def openPRIDsOfReviewers (db : DB) (userIDs : List String) : List String :=
  ((db.reviewers.filter (fun r =>
      userIDs.contains r.userId
        && db.prs.any (fun pr => pr.id == r.pullRequestId && pr.status == PRStatus.OPEN))).map
    Reviewer.pullRequestId).dedup

/-- mapReviewersToPRs: attach to each PR the reviewer rows carrying its id (Go
iterates a map here, so the PR order is unspecified; this model keeps the
order of the prs argument). -/
def mapReviewersToPRs (prs : List PullRequest) (reviewers : List Reviewer) :
    List PullRequest :=
  prs.map (fun pr =>
    { pr with reviewerIDs :=
        (reviewers.filter (fun r => r.pullRequestId == pr.id)).map Reviewer.userId })

/-- GetOpenPRsByReviewers: the distinct open PR ids, short-circuiting to []
when there are none; then the PR rows (locked FOR UPDATE) and all their
reviewer rows, combined by mapReviewersToPRs. -/
def getOpenPRsByReviewers (db : DB) (userIDs : List String) : List PullRequest :=
  let prIDs := openPRIDsOfReviewers db userIDs
  if prIDs.isEmpty then []
  else
    let prs := db.prs.filter (fun pr => prIDs.contains pr.id)
    let reviewers := db.reviewers.filter (fun r => prIDs.contains r.pullRequestId)
    mapReviewersToPRs prs reviewers

/-- The in-memory update of pr.ReviewerIDs after a cascade replacement: set
the first slot holding oldID to newID and stop. -/
def replaceFirst : List String → String → String → List String
  | [], _, _ => []
  | x :: rest, oldID, newID =>
    if x == oldID then newID :: rest else x :: replaceFirst rest oldID newID

/-- The inner loop of reassignPRsForDeactivatedUsers over the copied original
reviewer list of one PR.  db0 is the state committed before the transaction:
GetRandomActiveReviewers queries the connection pool (r.db), not tx, so its
read does not see the uncommitted deactivation.  db is the transaction state
accumulating reviewer writes; cur is the in-memory pr.ReviewerIDs; k counts
selection calls to give each one its own randomness. -/
def cascadeSlots (db0 : DB) (teamID : Nat) (deactivatedSet : List String)
    (pr : PullRequest) (rng : Nat → Nat → Nat) :
    List String → DB → List String → Nat → DB × List String × Nat
  | [], db, cur, k => (db, cur, k)
  | oldID :: rest, db, cur, k =>
    if deactivatedSet.contains oldID then
      match getRandomActiveReviewers db0 teamID (excludeIDs pr cur) 1 (rng k) with
      | [] => cascadeSlots db0 teamID deactivatedSet pr rng rest db cur (k + 1)
      | newID :: _ =>
        cascadeSlots db0 teamID deactivatedSet pr rng rest
          (replaceReviewer db pr.id oldID newID) (replaceFirst cur oldID newID) (k + 1)
    else cascadeSlots db0 teamID deactivatedSet pr rng rest db cur k

/-- The outer loop of reassignPRsForDeactivatedUsers over the affected PRs. -/
def cascadePRs (db0 : DB) (teamID : Nat) (deactivatedSet : List String)
    (rng : Nat → Nat → Nat) : List PullRequest → DB → Nat → DB
  | [], db, _ => db
  | pr :: rest, db, k =>
    let step := cascadeSlots db0 teamID deactivatedSet pr rng pr.reviewerIDs db pr.reviewerIDs k
    cascadePRs db0 teamID deactivatedSet rng rest step.1 step.2.2

/-- DeactivateTeam: in one transaction resolve the team by name (NotFound if
absent), deactivate its active users, short-circuit on zero, collect the open
PRs reviewed by any deactivated user, run the cascade, and return
(deactivated user count, touched PR count).  The cascade draws candidates
from the pre-transaction state db because GetRandomActiveReviewers reads the
pool connection. -/
def deactivateTeam (db : DB) (teamName : String) (rng : Nat → Nat → Nat) :
    DB × Except AppError (Nat × Nat) :=
  match getTeamByName db teamName with
  | none => (db, Except.error AppError.notFound)
  | some team =>
    let step := deactivateUsersByTeamID db team.id
    let db1 := step.1
    let deactivatedUserIDs := step.2
    if deactivatedUserIDs.length = 0 then (db1, Except.ok (0, 0))
    else
      let prsToReassign := getOpenPRsByReviewers db1 deactivatedUserIDs
      if prsToReassign.length = 0 then (db1, Except.ok (deactivatedUserIDs.length, 0))
      else
        let db2 := cascadePRs db team.id deactivatedUserIDs rng prsToReassign db1 0
        (db2, Except.ok (deactivatedUserIDs.length, prsToReassign.length))

/-! The team service (CreateTeamWithUsers). -/

/-- insertTeam: INSERT INTO teams (name) VALUES (teamName) RETURNING id, name;
a unique violation on the name becomes AlreadyExists. -/
def insertTeam (db : DB) (teamName : String) : Except AppError (DB × Team) :=
  if db.teams.any (fun t => t.name == teamName) then Except.error AppError.alreadyExists
  else
    let t : Team := ⟨db.nextTeamId, teamName⟩
    Except.ok ({ db with teams := db.teams ++ [t], nextTeamId := db.nextTeamId + 1 }, t)

/-- One row of the bulk INSERT ... ON CONFLICT (id) DO UPDATE SET username,
team_id, is_active of upsertTeamMembers. -/
def upsertUser (db : DB) (u : User) : DB :=
  if db.users.any (fun v => v.id == u.id) then
    { db with users := db.users.map (fun v => if v.id == u.id then u else v) }
  else
    { db with users := db.users ++ [u] }

/-- upsertTeamMembers: the bulk upsert, row by row in list order (Postgres
rejects the statement outright when the same id appears twice in one INSERT,
so on the inputs it accepts the row-by-row fold agrees with it). -/
def upsertTeamMembers (db : DB) (teamID : Nat) (members : List TeamMember) : DB :=
  members.foldl (fun d m => upsertUser d ⟨m.userId, m.username, teamID, m.isActive⟩) db

/-- CreateTeamWithUsers: one transaction inserting the team, then upserting
every listed member into it; an error rolls everything back. -/
def createTeamWithUsers (db : DB) (teamName : String) (members : List TeamMember) :
    DB × Except AppError Team :=
  match insertTeam db teamName with
  | Except.error e => (db, Except.error e)
  | Except.ok (db1, t) =>
    let db2 := if members.length > 0 then upsertTeamMembers db1 t.id members else db1
    (db2, Except.ok t)

/-! Well-formedness of a database state. -/

/-- Structural invariants the schema enforces: users and pull_requests have
primary keys, reviewer rows reference existing PRs and users. -/
def WF (db : DB) : Prop :=
  (db.users.map User.id).Nodup
    ∧ (db.prs.map PullRequest.id).Nodup
    ∧ (∀ r ∈ db.reviewers, ∃ pr ∈ db.prs, pr.id = r.pullRequestId)
    ∧ (∀ r ∈ db.reviewers, ∃ u ∈ db.users, u.id = r.userId)

/-- The reviewer-set invariants of the spec: per PR no duplicate reviewer and
never the author. -/
def RevSetsOK (db : DB) : Prop :=
  (∀ pr ∈ db.prs, (getReviewerIDs db pr.id).Nodup)
    ∧ (∀ pr ∈ db.prs, pr.authorId ∉ getReviewerIDs db pr.id)

/-! Concrete databases used to instantiate the theorems. -/

/-- A small well-formed database: team alpha with active users a, b, c and
inactive d, team beta with active user x; an open PR p1 (author a, reviewer
b) and a merged PR p2 (author a, reviewer c). -/
def dbW : DB :=
  { teams := [⟨1, "alpha"⟩, ⟨2, "beta"⟩],
    users := [⟨"a", "A", 1, true⟩, ⟨"b", "B", 1, true⟩, ⟨"c", "C", 1, true⟩,
      ⟨"d", "D", 1, false⟩, ⟨"x", "X", 2, true⟩],
    prs := [{ id := "p1", name := "one", authorId := "a", status := PRStatus.OPEN,
              needMoreReviewers := false, createdAt := 0, mergedAt := none },
            { id := "p2", name := "two", authorId := "a", status := PRStatus.MERGED,
              needMoreReviewers := false, createdAt := 0, mergedAt := some 5 }],
    reviewers := [⟨"p1", "b"⟩, ⟨"p2", "c"⟩],
    nextTeamId := 3 }

/-- Database for the C6 counterexample: team alpha's only member r1 reviews
the open PR p authored by x of team beta; deactivating alpha finds no
replacement for r1. -/
def dbNoCand : DB :=
  { teams := [⟨1, "alpha"⟩, ⟨2, "beta"⟩],
    users := [⟨"r1", "R1", 1, true⟩, ⟨"x", "X", 2, true⟩],
    prs := [{ id := "p", name := "pr", authorId := "x", status := PRStatus.OPEN,
              needMoreReviewers := false, createdAt := 0, mergedAt := none }],
    reviewers := [⟨"p", "r1"⟩],
    nextTeamId := 3 }

/-- Database for the C9 counterexample: team alpha has the reviewer r1 and a
further active member u3 that reviews nothing; the open PR p is authored by x
of team beta.  Deactivating alpha deactivates both r1 and u3, yet the cascade
still picks u3 as r1's replacement, because candidate selection reads the
connection pool, which does not see the uncommitted deactivation. -/
def dbPool : DB :=
  { teams := [⟨1, "alpha"⟩, ⟨2, "beta"⟩],
    users := [⟨"r1", "R1", 1, true⟩, ⟨"u3", "U3", 1, true⟩, ⟨"x", "X", 2, true⟩],
    prs := [{ id := "p", name := "pr", authorId := "x", status := PRStatus.OPEN,
              needMoreReviewers := false, createdAt := 0, mergedAt := none }],
    reviewers := [⟨"p", "r1"⟩],
    nextTeamId := 3 }

/-- Is a user active in the given state?  Defaults to true for an absent id so
that a `false` answer always denotes a present, inactive user. -/
def userIsActive (db : DB) (userID : String) : Bool :=
  ((db.users.find? (fun u => u.id == userID)).map User.isActive).getD true

/-- The count the specification assigns to DeactivateTeam's second result:
the number of OPEN pull requests on which at least one of the given users is
a reviewer (PRs touched, not reviewer slots). -/
def specTouchedOpenPRCount (db : DB) (ids : List String) : Nat :=
  (db.prs.filter (fun pr => pr.status == PRStatus.OPEN
    && db.reviewers.any (fun r => r.pullRequestId == pr.id
        && ids.contains r.userId))).length

/-! Lemmas about the selection loop. -/

theorem cons_set_perm (a : String) :
    ∀ (t : List String) (k : Nat), k < t.length →
      List.Perm (t.getD k "" :: t.set k a) (a :: t) := by
  intro t
  induction t with
  | nil => intro k hk; simp at hk
  | cons b s ih =>
    intro k hk
    cases k with
    | zero => simpa using List.Perm.swap a b s
    | succ k =>
      have hk' : k < s.length := by simpa using hk
      simp only [List.getD_cons_succ, List.set_cons_succ]
      exact ((List.Perm.swap b (s.getD k "") (s.set k a)).trans
        ((ih k hk').cons b)).trans (List.Perm.swap a b s)

theorem listSwap_length (l : List String) (i j : Nat) :
    (listSwap l i j).length = l.length := by
  simp [listSwap]

theorem listSwap_zero_perm (l : List String) (k : Nat) (hk : k < l.length) :
    List.Perm (listSwap l 0 k) l := by
  cases l with
  | nil => simp at hk
  | cons a t =>
    cases k with
    | zero => simp [listSwap]
    | succ k =>
      have hk' : k < t.length := by simpa using hk
      simp only [listSwap, List.getD_cons_succ, List.getD_cons_zero, List.set_cons_zero,
        List.set_cons_succ]
      exact cons_set_perm a t k hk'

theorem getD_drop (l : List String) (i m : Nat) :
    (l.drop i).getD m "" = l.getD (i + m) "" := by
  simp [List.getD_eq_getElem?_getD, List.getElem?_drop]

theorem listSwap_drop (l : List String) (i j : Nat) (hij : i ≤ j) :
    (listSwap l i j).drop i = listSwap (l.drop i) 0 (j - i) := by
  have h1 : ¬ j < i := Nat.not_lt.mpr hij
  have h2 : ¬ i < i := Nat.lt_irrefl i
  simp only [listSwap, List.drop_set, h1, h2, if_false, Nat.sub_self]
  rw [getD_drop, getD_drop, Nat.add_zero, Nat.add_sub_cancel' hij]

theorem fisherYatesTake_succ (rng : Nat → Nat) (arr : List String) (i fuel : Nat) :
    fisherYatesTake rng arr i (fuel + 1) =
      (listSwap arr i (rng i % (arr.length - i) + i)).getD i "" ::
        fisherYatesTake rng (listSwap arr i (rng i % (arr.length - i) + i)) (i + 1) fuel := rfl

theorem fisherYatesTake_length (rng : Nat → Nat) :
    ∀ (fuel : Nat) (arr : List String) (i : Nat),
      (fisherYatesTake rng arr i fuel).length = fuel := by
  intro fuel
  induction fuel with
  | zero => intro arr i; rfl
  | succ fuel ih => intro arr i; rw [fisherYatesTake_succ]; simp [ih]

theorem fisherYatesTake_mem (rng : Nat → Nat) :
    ∀ (fuel : Nat) (arr : List String) (i : Nat), i + fuel ≤ arr.length →
      ∀ x ∈ fisherYatesTake rng arr i fuel, x ∈ arr.drop i := by
  intro fuel
  induction fuel with
  | zero => intro arr i _ x hx; simp [fisherYatesTake] at hx
  | succ fuel ih =>
    intro arr i h x hx
    have hi : i < arr.length := by omega
    have hmod : rng i % (arr.length - i) < arr.length - i := Nat.mod_lt _ (by omega)
    have hij : i ≤ rng i % (arr.length - i) + i := by omega
    have hperm : List.Perm ((listSwap arr i (rng i % (arr.length - i) + i)).drop i)
        (arr.drop i) := by
      rw [listSwap_drop arr i _ hij]
      exact listSwap_zero_perm (arr.drop i) _ (by rw [List.length_drop]; omega)
    have hlen1 : (listSwap arr i (rng i % (arr.length - i) + i)).length = arr.length :=
      listSwap_length ..
    have hi1 : i < (listSwap arr i (rng i % (arr.length - i) + i)).length := by omega
    have hcons : (listSwap arr i (rng i % (arr.length - i) + i)).drop i =
        (listSwap arr i (rng i % (arr.length - i) + i)).getD i "" ::
          (listSwap arr i (rng i % (arr.length - i) + i)).drop (i + 1) := by
      rw [List.drop_eq_getElem_cons hi1, List.getD_eq_getElem _ _ hi1]
    rw [fisherYatesTake_succ] at hx
    rcases List.mem_cons.mp hx with hx | hx
    · exact hperm.mem_iff.mp (by rw [hcons, hx]; exact List.mem_cons_self _ _)
    · have hxd := ih (listSwap arr i (rng i % (arr.length - i) + i)) (i + 1) (by omega) x hx
      exact hperm.mem_iff.mp (by rw [hcons]; exact List.mem_cons_of_mem _ hxd)

theorem fisherYatesTake_nodup (rng : Nat → Nat) :
    ∀ (fuel : Nat) (arr : List String) (i : Nat), i + fuel ≤ arr.length →
      (arr.drop i).Nodup → (fisherYatesTake rng arr i fuel).Nodup := by
  intro fuel
  induction fuel with
  | zero => intro arr i _ _; simp [fisherYatesTake]
  | succ fuel ih =>
    intro arr i h hnd
    have hi : i < arr.length := by omega
    have hmod : rng i % (arr.length - i) < arr.length - i := Nat.mod_lt _ (by omega)
    have hij : i ≤ rng i % (arr.length - i) + i := by omega
    have hperm : List.Perm ((listSwap arr i (rng i % (arr.length - i) + i)).drop i)
        (arr.drop i) := by
      rw [listSwap_drop arr i _ hij]
      exact listSwap_zero_perm (arr.drop i) _ (by rw [List.length_drop]; omega)
    have hlen1 : (listSwap arr i (rng i % (arr.length - i) + i)).length = arr.length :=
      listSwap_length ..
    have hi1 : i < (listSwap arr i (rng i % (arr.length - i) + i)).length := by omega
    have hcons : (listSwap arr i (rng i % (arr.length - i) + i)).drop i =
        (listSwap arr i (rng i % (arr.length - i) + i)).getD i "" ::
          (listSwap arr i (rng i % (arr.length - i) + i)).drop (i + 1) := by
      rw [List.drop_eq_getElem_cons hi1, List.getD_eq_getElem _ _ hi1]
    have hnd1 : ((listSwap arr i (rng i % (arr.length - i) + i)).drop i).Nodup :=
      (hperm.nodup_iff).mpr hnd
    rw [hcons] at hnd1
    rw [fisherYatesTake_succ]
    refine List.nodup_cons.mpr ⟨fun hmem => ?_, ih _ (i + 1) (by omega)
      (List.nodup_cons.mp hnd1).2⟩
    exact (List.nodup_cons.mp hnd1).1
      (fisherYatesTake_mem rng fuel _ (i + 1) (by omega) _ hmem)

/-! Lemmas about the candidate pool and GetRandomActiveReviewers. -/

theorem eligiblePool_nodup (db : DB) (teamID : Nat) (ex : List String)
    (h : (db.users.map User.id).Nodup) : (eligiblePool db teamID ex).Nodup :=
  List.Nodup.sublist ((List.filter_sublist _).map _) h

theorem mem_eligiblePool {db : DB} {teamID : Nat} {ex : List String} {x : String} :
    x ∈ eligiblePool db teamID ex ↔
      ∃ u ∈ db.users, u.id = x ∧ u.teamId = teamID ∧ u.isActive = true ∧ x ∉ ex := by
  unfold eligiblePool
  constructor
  · intro hx
    obtain ⟨u, hu, rfl⟩ := List.mem_map.mp hx
    obtain ⟨hmem, hcond⟩ := List.mem_filter.mp hu
    simp only [Bool.and_eq_true, beq_iff_eq, Bool.not_eq_true', List.elem_eq_mem,
      decide_eq_false_iff_not] at hcond
    exact ⟨u, hmem, rfl, hcond.1.1, hcond.1.2, hcond.2⟩
  · rintro ⟨u, hu, rfl, ht, ha, hex⟩
    refine List.mem_map.mpr ⟨u, List.mem_filter.mpr ⟨hu, ?_⟩, rfl⟩
    simp only [Bool.and_eq_true, beq_iff_eq, Bool.not_eq_true', List.elem_eq_mem,
      decide_eq_false_iff_not]
    exact ⟨⟨ht, ha⟩, hex⟩

theorem gRAR_mem (db : DB) (teamID : Nat) (ex : List String) (cnt : Nat) (rng : Nat → Nat) :
    ∀ x ∈ getRandomActiveReviewers db teamID ex cnt rng, x ∈ eligiblePool db teamID ex := by
  intro x hx
  unfold getRandomActiveReviewers at hx
  by_cases h0 : (eligiblePool db teamID ex).length = 0
  · simp [h0] at hx
  · by_cases hle : (eligiblePool db teamID ex).length ≤ cnt
    · simpa [h0, hle] using hx
    · simp only [h0, hle, if_false] at hx
      simpa using fisherYatesTake_mem rng cnt (eligiblePool db teamID ex) 0 (by omega) x hx

theorem gRAR_nodup (db : DB) (teamID : Nat) (ex : List String) (cnt : Nat) (rng : Nat → Nat)
    (h : (db.users.map User.id).Nodup) :
    (getRandomActiveReviewers db teamID ex cnt rng).Nodup := by
  unfold getRandomActiveReviewers
  by_cases h0 : (eligiblePool db teamID ex).length = 0
  · simp [h0]
  · by_cases hle : (eligiblePool db teamID ex).length ≤ cnt
    · simpa [h0, hle] using eligiblePool_nodup db teamID ex h
    · simp only [h0, hle, if_false]
      exact fisherYatesTake_nodup rng cnt _ 0 (by omega)
        (by simpa using eligiblePool_nodup db teamID ex h)

theorem gRAR_length (db : DB) (teamID : Nat) (ex : List String) (cnt : Nat) (rng : Nat → Nat)
    (h : cnt < (eligiblePool db teamID ex).length) :
    (getRandomActiveReviewers db teamID ex cnt rng).length = cnt := by
  unfold getRandomActiveReviewers
  simp only [if_neg (by omega : ¬(eligiblePool db teamID ex).length = 0),
    if_neg (by omega : ¬(eligiblePool db teamID ex).length ≤ cnt)]
  exact fisherYatesTake_length rng cnt _ 0

theorem gRAR_all (db : DB) (teamID : Nat) (ex : List String) (cnt : Nat) (rng : Nat → Nat)
    (h : (eligiblePool db teamID ex).length ≤ cnt) :
    getRandomActiveReviewers db teamID ex cnt rng = eligiblePool db teamID ex := by
  unfold getRandomActiveReviewers
  by_cases h0 : (eligiblePool db teamID ex).length = 0
  · simp [h0, List.length_eq_zero.mp h0]
  · simp [h0, h]

theorem gRAR_nil_iff (db : DB) (teamID : Nat) (ex : List String) (cnt : Nat) (rng : Nat → Nat)
    (hc : 0 < cnt) :
    getRandomActiveReviewers db teamID ex cnt rng = [] ↔
      eligiblePool db teamID ex = [] := by
  constructor
  · intro h
    by_contra hne
    have hpos : 0 < (eligiblePool db teamID ex).length := List.length_pos.mpr hne
    by_cases hle : (eligiblePool db teamID ex).length ≤ cnt
    · rw [gRAR_all db teamID ex cnt rng hle] at h
      exact hne h
    · have := gRAR_length db teamID ex cnt rng (by omega)
      rw [h] at this
      simp at this
      omega
  · intro h
    rw [gRAR_all db teamID ex cnt rng (by simp [h])]
    exact h

/-! Lemmas about reviewer rows. -/

theorem mem_getReviewerIDs {db : DB} {prID x : String} :
    x ∈ getReviewerIDs db prID ↔
      ∃ r ∈ db.reviewers, r.pullRequestId = prID ∧ r.userId = x := by
  unfold getReviewerIDs
  simp only [List.mem_map, List.mem_filter, beq_iff_eq]
  constructor
  · rintro ⟨r, ⟨hr, hpid⟩, rfl⟩
    exact ⟨r, hr, hpid, rfl⟩
  · rintro ⟨r, hr, hpid, rfl⟩
    exact ⟨r, ⟨hr, hpid⟩, rfl⟩

theorem mem_excludeIDs {pr : PullRequest} {cur : List String} {x : String} :
    x ∈ excludeIDs pr cur ↔ x ∈ cur ∨ x = pr.authorId := by
  unfold excludeIDs
  simp [List.mem_dedup]

theorem revRows_replace (rows : List Reviewer) (prID oldID newID : String) :
    ((rows.filter (fun r => !(r.pullRequestId == prID && r.userId == oldID))
        ++ [Reviewer.mk prID newID]).filter
          (fun r => r.pullRequestId == prID)).map Reviewer.userId =
      ((rows.filter (fun r => r.pullRequestId == prID)).map Reviewer.userId).filter
          (fun x => !(x == oldID)) ++ [newID] := by
  induction rows with
  | nil => simp
  | cons r rest ih =>
    by_cases h1 : r.pullRequestId = prID
    · by_cases h2 : r.userId = oldID
      · rw [List.filter_cons_of_neg (by simp [h1, h2])]
        rw [ih]
        conv_rhs => rw [List.filter_cons_of_pos (by simp [h1]), List.map_cons,
          List.filter_cons_of_neg (by simp [h2])]
      · rw [List.filter_cons_of_pos (by simp [h1, h2]), List.cons_append,
          List.filter_cons_of_pos (by simp [h1]), List.map_cons, ih]
        conv_rhs => rw [List.filter_cons_of_pos (by simp [h1]), List.map_cons,
          List.filter_cons_of_pos (by simp [h2])]
        rw [List.cons_append]
    · rw [List.filter_cons_of_pos (by simp [h1]), List.cons_append,
        List.filter_cons_of_neg (by simp [h1]), ih]
      conv_rhs => rw [List.filter_cons_of_neg (by simp [h1])]

theorem getReviewerIDs_replaceReviewer_same (db : DB) (prID oldID newID : String) :
    getReviewerIDs (replaceReviewer db prID oldID newID) prID =
      (getReviewerIDs db prID).filter (fun x => !(x == oldID)) ++ [newID] := by
  unfold getReviewerIDs replaceReviewer
  exact revRows_replace db.reviewers prID oldID newID

theorem revRows_replace_other (rows : List Reviewer) (prID prID2 oldID newID : String)
    (h : prID2 ≠ prID) :
    ((rows.filter (fun r => !(r.pullRequestId == prID && r.userId == oldID))
        ++ [Reviewer.mk prID newID]).filter
          (fun r => r.pullRequestId == prID2)).map Reviewer.userId =
      (rows.filter (fun r => r.pullRequestId == prID2)).map Reviewer.userId := by
  induction rows with
  | nil => simp [Ne.symm h]
  | cons r rest ih =>
    by_cases h1 : r.pullRequestId = prID2
    · have h2 : ¬ r.pullRequestId = prID := by rw [h1]; exact h
      rw [List.filter_cons_of_pos (by simp [h2]), List.cons_append,
        List.filter_cons_of_pos (by simp [h1]), List.map_cons, ih]
      conv_rhs => rw [List.filter_cons_of_pos (by simp [h1]), List.map_cons]
    · by_cases h2 : r.pullRequestId = prID ∧ r.userId = oldID
      · rw [List.filter_cons_of_neg (by simp [h2.1, h2.2])]
        rw [ih]
        conv_rhs => rw [List.filter_cons_of_neg (by simp [h1])]
      · rw [List.filter_cons_of_pos
            (by simpa using Decidable.not_and_iff_or_not.mp h2),
          List.cons_append, List.filter_cons_of_neg (by simp [h1]), ih]
        conv_rhs => rw [List.filter_cons_of_neg (by simp [h1])]

theorem getReviewerIDs_replaceReviewer_other (db : DB) (prID prID2 oldID newID : String)
    (h : prID2 ≠ prID) :
    getReviewerIDs (replaceReviewer db prID oldID newID) prID2 =
      getReviewerIDs db prID2 := by
  unfold getReviewerIDs replaceReviewer
  exact revRows_replace_other db.reviewers prID prID2 oldID newID h

/-! Inversion of a successful validateAndFindReplacement. -/

theorem validate_ok (db : DB) (prID oldID : String) (rng : Nat → Nat) (c : String)
    (pr : PullRequest)
    (h : validateAndFindReplacement db prID oldID rng = Except.ok (c, pr)) :
    getPRByIDWithLock db prID = some pr
      ∧ pr.status ≠ PRStatus.MERGED
      ∧ oldID ∈ getReviewerIDs db prID
      ∧ ∃ teamID, getUserTeamID db oldID = some teamID
          ∧ c ∈ getRandomActiveReviewers db teamID
              (excludeIDs pr (getReviewerIDs db prID)) 1 rng := by
  unfold validateAndFindReplacement at h
  cases hfind : getPRByIDWithLock db prID with
  | none => simp [hfind] at h
  | some pr0 =>
    simp only [hfind] at h
    by_cases hst : pr0.status = PRStatus.MERGED
    · simp [hst] at h
    · simp only [if_neg hst] at h
      by_cases hmem : oldID ∈ getReviewerIDs db prID
      · simp only [if_pos hmem] at h
        cases hteam : getUserTeamID db oldID with
        | none => simp [hteam] at h
        | some teamID =>
          simp only [hteam] at h
          cases hsel : getRandomActiveReviewers db teamID
              (excludeIDs pr0 (getReviewerIDs db prID)) 1 rng with
          | nil => simp [hsel] at h
          | cons c0 rest =>
            simp only [hsel, Except.ok.injEq, Prod.mk.injEq] at h
            obtain ⟨rfl, rfl⟩ := h
            refine ⟨rfl, hst, hmem, teamID, rfl, ?_⟩
            rw [hsel]
            exact List.mem_cons_self _ _
      · simp [if_neg hmem] at h

/-! Lemmas about UpdatePRStatus and MergePR. -/

theorem applyStatus_id (prID : String) (status : PRStatus) (t : Nat) (pr : PullRequest) :
    (applyStatus prID status t pr).id = pr.id := by
  unfold applyStatus
  by_cases h : pr.id == prID <;> by_cases h2 : status == PRStatus.MERGED <;> simp [h, h2]

theorem find?_prs_map_applyStatus (prs : List PullRequest) (prID : String)
    (status : PRStatus) (t : Nat) :
    (prs.map (applyStatus prID status t)).find? (fun pr => pr.id == prID) =
      (prs.find? (fun pr => pr.id == prID)).map (applyStatus prID status t) := by
  rw [List.find?_map]
  have hp : ((fun pr => pr.id == prID) ∘ applyStatus prID status t) =
      (fun pr : PullRequest => pr.id == prID) := by
    funext pr
    simp [Function.comp, applyStatus_id]
  rw [hp]

theorem applyStatus_merged_of_id (prID : String) (t : Nat) (pr : PullRequest)
    (h : pr.id = prID) :
    applyStatus prID PRStatus.MERGED t pr =
      { pr with
        status := PRStatus.MERGED
        mergedAt := some t
        needMoreReviewers := false } := by
  unfold applyStatus
  simp [h]

theorem getReviewerIDs_prs_irrel (db : DB) (prs : List PullRequest) (prID : String) :
    getReviewerIDs { db with prs := prs } prID = getReviewerIDs db prID := rfl

theorem getPRByID_eq_lock (db : DB) (prID : String) :
    getPRByID db prID = getPRByIDWithLock db prID := rfl

/-- The row list inserted for a PR filters back to exactly the inserted ids. -/
theorem revRows_of_insert (l : List String) (prID : String) :
    ((l.map (fun x => Reviewer.mk prID x)).filter
        (fun r => r.pullRequestId == prID)).map Reviewer.userId = l := by
  induction l with
  | nil => rfl
  | cons x rest ih => simp [ih]

theorem getReviewerIDs_assignReviewers (db : DB) (prID : String) (l : List String) :
    getReviewerIDs (assignReviewers db prID l) prID = getReviewerIDs db prID ++ l := by
  unfold getReviewerIDs assignReviewers
  simp only [List.filter_append, List.map_append]
  rw [revRows_of_insert]

/-- What a successful MergePR of a not-yet-merged PR computes. -/
theorem mergePR_open (db : DB) (prID : String) (now : Nat) (pr : PullRequest)
    (hf : getPRByIDWithLock db prID = some pr) (hst : pr.status ≠ PRStatus.MERGED) :
    (mergePR db prID now).1 =
        { db with prs := db.prs.map (applyStatus prID PRStatus.MERGED now) }
    ∧ (mergePR db prID now).2 = Except.ok { pr with
        status := PRStatus.MERGED
        mergedAt := some now
        reviewerIDs := getReviewerIDs db prID }
    ∧ getPRByIDWithLock (mergePR db prID now).1 prID = some { pr with
        status := PRStatus.MERGED
        mergedAt := some now
        needMoreReviewers := false } := by
  have hf' : db.prs.find? (fun p => p.id == prID) = some pr := hf
  have hpred := List.find?_some hf'
  have hid : pr.id = prID := by simpa using hpred
  have hany : db.prs.any (fun p => p.id == prID) = true :=
    List.any_eq_true.mpr ⟨pr, List.mem_of_find?_eq_some hf', hpred⟩
  have hupd : updatePRStatus db prID PRStatus.MERGED now =
      Except.ok { db with prs := db.prs.map (applyStatus prID PRStatus.MERGED now) } := by
    simp [updatePRStatus, hany]
  have hfst : (mergePR db prID now).1 =
      { db with prs := db.prs.map (applyStatus prID PRStatus.MERGED now) } := by
    simp [mergePR, hf, hst, hupd]
  refine ⟨hfst, by simp [mergePR, hf, hst, hupd, getReviewerIDs], ?_⟩
  rw [hfst]
  unfold getPRByIDWithLock
  show (db.prs.map (applyStatus prID PRStatus.MERGED now)).find? _ = _
  rw [find?_prs_map_applyStatus, hf']
  simp [applyStatus_merged_of_id prID now pr hid]

/-- Inversion of a successful CreatePR. -/
theorem createPR_ok (db : DB) (prID prName authorID : String) (now : Nat)
    (rng : Nat → Nat) (db2 : DB) (pr : PullRequest)
    (h : createPR db prID prName authorID now rng = (db2, Except.ok pr)) :
    ∃ teamID, getUserTeamID db authorID = some teamID
      ∧ db.prs.any (fun p => p.id == prID) = false
      ∧ pr = {
          id := prID
          name := prName
          authorId := authorID
          status := PRStatus.OPEN
          needMoreReviewers :=
            decide ((getRandomActiveReviewers db teamID [authorID] 2 rng).length < 2)
          createdAt := now
          mergedAt := none
          reviewerIDs := getRandomActiveReviewers db teamID [authorID] 2 rng }
      ∧ db2.prs = db.prs ++ [{ pr with reviewerIDs := [] }]
      ∧ db2.reviewers = db.reviewers ++
          (getRandomActiveReviewers db teamID [authorID] 2 rng).map
            (fun x => Reviewer.mk prID x)
      ∧ db2.users = db.users ∧ db2.teams = db.teams := by
  unfold createPR at h
  cases hteam : getUserTeamID db authorID with
  | none => rw [hteam] at h; exact absurd h (by simp)
  | some teamID =>
    simp only [hteam] at h
    by_cases hex : db.prs.any (fun p => p.id == prID) = true
    · rw [if_pos hex] at h; exact absurd h (by simp)
    · rw [if_neg hex] at h
      by_cases hlen : (getRandomActiveReviewers db teamID [authorID] 2 rng).length > 0
      · simp only [if_pos hlen, Prod.mk.injEq, Except.ok.injEq] at h
        obtain ⟨hdb2, hpr⟩ := h
        refine ⟨teamID, rfl, by simpa using hex, hpr.symm, ?_, ?_, ?_, ?_⟩ <;>
          rw [← hdb2] <;> simp [assignReviewers, hpr.symm]
      · simp only [if_neg hlen, Prod.mk.injEq, Except.ok.injEq] at h
        obtain ⟨hdb2, hpr⟩ := h
        have hnil : getRandomActiveReviewers db teamID [authorID] 2 rng = [] :=
          List.length_eq_zero.mp (by omega)
        refine ⟨teamID, rfl, by simpa using hex, by rw [hnil] at hpr ⊢; exact hpr.symm,
          ?_, ?_, ?_, ?_⟩ <;> rw [← hdb2] <;> simp [hnil, hpr.symm]

/-! Claim theorems. -/

/-- C1: GetRandomActiveReviewers returns distinct ids that are all active
members of the requested team and none of them excluded; when more than cnt
candidates are eligible it returns exactly cnt of them, when at most cnt are
eligible it returns the whole pool, and an empty pool yields an empty list
rather than an error. -/
theorem claim1_selection (db : DB) (teamID : Nat) (excludeUserIDs : List String)
    (cnt : Nat) (rng : Nat → Nat) (husers : (db.users.map User.id).Nodup) :
    (getRandomActiveReviewers db teamID excludeUserIDs cnt rng).Nodup
    ∧ (∀ x ∈ getRandomActiveReviewers db teamID excludeUserIDs cnt rng,
        ∃ u ∈ db.users, u.id = x ∧ u.isActive = true ∧ u.teamId = teamID
          ∧ x ∉ excludeUserIDs)
    ∧ (cnt < (eligiblePool db teamID excludeUserIDs).length →
        (getRandomActiveReviewers db teamID excludeUserIDs cnt rng).length = cnt)
    ∧ ((eligiblePool db teamID excludeUserIDs).length ≤ cnt →
        getRandomActiveReviewers db teamID excludeUserIDs cnt rng =
          eligiblePool db teamID excludeUserIDs)
    ∧ (eligiblePool db teamID excludeUserIDs = [] →
        getRandomActiveReviewers db teamID excludeUserIDs cnt rng = []) := by
  refine ⟨gRAR_nodup db teamID excludeUserIDs cnt rng husers, ?_,
    gRAR_length db teamID excludeUserIDs cnt rng,
    gRAR_all db teamID excludeUserIDs cnt rng, ?_⟩
  · intro x hx
    obtain ⟨u, hu, rfl, ht, ha, hex⟩ := mem_eligiblePool.mp
      (gRAR_mem db teamID excludeUserIDs cnt rng x hx)
    exact ⟨u, hu, rfl, ha, ht, hex⟩
  · intro h
    rw [gRAR_all db teamID excludeUserIDs cnt rng (by simp [h])]
    exact h

/-- Witness for C1: team alpha of dbW with the author a excluded leaves the
eligible pool [b, c]. -/
theorem claim1_selection_witness :
    (dbW.users.map User.id).Nodup
    ∧ ((getRandomActiveReviewers dbW 1 ["a"] 2 (fun _ => 0)).Nodup
      ∧ (∀ x ∈ getRandomActiveReviewers dbW 1 ["a"] 2 (fun _ => 0),
          ∃ u ∈ dbW.users, u.id = x ∧ u.isActive = true ∧ u.teamId = 1 ∧ x ∉ ["a"])
      ∧ (2 < (eligiblePool dbW 1 ["a"]).length →
          (getRandomActiveReviewers dbW 1 ["a"] 2 (fun _ => 0)).length = 2)
      ∧ ((eligiblePool dbW 1 ["a"]).length ≤ 2 →
          getRandomActiveReviewers dbW 1 ["a"] 2 (fun _ => 0) = eligiblePool dbW 1 ["a"])
      ∧ (eligiblePool dbW 1 ["a"] = [] →
          getRandomActiveReviewers dbW 1 ["a"] 2 (fun _ => 0) = [])) :=
  ⟨by decide, claim1_selection dbW 1 ["a"] 2 (fun _ => 0) (by decide)⟩

/-- C2: when ReassignReviewer succeeds, the stored reviewer set afterwards
lacks the old reviewer and contains the replacement, and the replacement is
neither the PR author nor any reviewer assigned before the call; it is an
active member of the old reviewer's team, drawn with the exclusion set
{author} ∪ {current reviewers}. -/
theorem claim2_reassign (db : DB) (prID oldID : String) (rng : Nat → Nat)
    (pr : PullRequest) (newID : String) (updated : List String)
    (h : (reassignReviewer db prID oldID rng).2 = Except.ok (pr, newID, updated)) :
    updated = getReviewerIDs (reassignReviewer db prID oldID rng).1 prID
    ∧ oldID ∉ updated
    ∧ newID ∈ updated
    ∧ newID ≠ pr.authorId
    ∧ newID ∉ getReviewerIDs db prID
    ∧ oldID ∈ getReviewerIDs db prID
    ∧ ∃ teamID, getUserTeamID db oldID = some teamID
        ∧ ∃ u ∈ db.users, u.id = newID ∧ u.teamId = teamID ∧ u.isActive = true := by
  unfold reassignReviewer at h ⊢
  cases hval : validateAndFindReplacement db prID oldID rng with
  | error e => rw [hval] at h; exact absurd h (by simp)
  | ok v =>
    obtain ⟨c, pr0⟩ := v
    obtain ⟨hfind, hst, hold, teamID, hteam, hsel⟩ :=
      validate_ok db prID oldID rng c pr0 hval
    simp only [hval, Except.ok.injEq, Prod.mk.injEq] at h
    obtain ⟨rfl, rfl, rfl⟩ := h
    obtain ⟨u, hu, huid, hut, hua, hex⟩ := mem_eligiblePool.mp
      (gRAR_mem db teamID (excludeIDs pr0 (getReviewerIDs db prID)) 1 rng c hsel)
    have hnotcur : c ∉ getReviewerIDs db prID ∧ c ≠ pr0.authorId := by
      constructor
      · intro hc; exact hex (mem_excludeIDs.mpr (Or.inl hc))
      · intro hc; exact hex (mem_excludeIDs.mpr (Or.inr hc))
    have hrw := getReviewerIDs_replaceReviewer_same db prID oldID c
    refine ⟨by simp [hval], ?_, ?_, hnotcur.2, hnotcur.1, hold, teamID, hteam,
      u, hu, huid, hut, hua⟩
    · rw [hrw]
      intro hmem
      rcases List.mem_append.mp hmem with hmem | hmem
      · have := (List.mem_filter.mp hmem).2
        simp at this
      · have : oldID = c := by simpa using hmem
        exact hnotcur.1 (this ▸ hold)
    · rw [hrw]
      exact List.mem_append.mpr (Or.inr (List.mem_singleton.mpr rfl))

/-- Witness for C2: reassigning b away from the open PR p1 of dbW replaces it
with c. -/
theorem claim2_reassign_witness :
    (reassignReviewer dbW "p1" "b" (fun _ => 0)).2 =
      Except.ok (PullRequest.mk "p1" "one" "a" PRStatus.OPEN false 0 none [], "c", ["c"])
    ∧ (["c"] = getReviewerIDs (reassignReviewer dbW "p1" "b" (fun _ => 0)).1 "p1"
      ∧ "b" ∉ ["c"]
      ∧ "c" ∈ ["c"]
      ∧ "c" ≠ (PullRequest.mk "p1" "one" "a" PRStatus.OPEN false 0 none []).authorId
      ∧ "c" ∉ getReviewerIDs dbW "p1"
      ∧ "b" ∈ getReviewerIDs dbW "p1"
      ∧ ∃ teamID, getUserTeamID dbW "b" = some teamID
          ∧ ∃ u ∈ dbW.users, u.id = "c" ∧ u.teamId = teamID ∧ u.isActive = true) :=
  ⟨by rfl, claim2_reassign dbW "p1" "b" (fun _ => 0)
    (PullRequest.mk "p1" "one" "a" PRStatus.OPEN false 0 none []) "c" ["c"] (by rfl)⟩

/-- C3: ReassignReviewer fails with NotFound when the PR does not exist, with
PRMerged on a MERGED PR, with ReviewerNotAssigned when the old reviewer is
not currently assigned, and with NoCandidate when the eligible replacement
pool is empty; every failure returns the state unchanged (rollback). -/
theorem claim3_reassign_failures (db : DB) (prID oldID : String) (rng : Nat → Nat) :
    (getPRByIDWithLock db prID = none →
      reassignReviewer db prID oldID rng = (db, Except.error AppError.notFound))
    ∧ (∀ pr, getPRByIDWithLock db prID = some pr → pr.status = PRStatus.MERGED →
        reassignReviewer db prID oldID rng = (db, Except.error AppError.prMerged))
    ∧ (∀ pr, getPRByIDWithLock db prID = some pr → pr.status ≠ PRStatus.MERGED →
        oldID ∉ getReviewerIDs db prID →
        reassignReviewer db prID oldID rng =
          (db, Except.error AppError.reviewerNotAssigned))
    ∧ (∀ pr teamID, getPRByIDWithLock db prID = some pr →
        pr.status ≠ PRStatus.MERGED → oldID ∈ getReviewerIDs db prID →
        getUserTeamID db oldID = some teamID →
        eligiblePool db teamID (excludeIDs pr (getReviewerIDs db prID)) = [] →
        reassignReviewer db prID oldID rng = (db, Except.error AppError.noCandidate))
    ∧ (∀ e, (reassignReviewer db prID oldID rng).2 = Except.error e →
        (reassignReviewer db prID oldID rng).1 = db) := by
  refine ⟨?_, ?_, ?_, ?_, ?_⟩
  · intro h
    simp [reassignReviewer, validateAndFindReplacement, h]
  · intro pr h1 h2
    simp [reassignReviewer, validateAndFindReplacement, h1, h2]
  · intro pr h1 h2 h3
    simp [reassignReviewer, validateAndFindReplacement, h1, h2, h3]
  · intro pr teamID h1 h2 h3 h4 h5
    have hsel : getRandomActiveReviewers db teamID
        (excludeIDs pr (getReviewerIDs db prID)) 1 rng = [] :=
      (gRAR_nil_iff db teamID _ 1 rng (by omega)).mpr h5
    simp [reassignReviewer, validateAndFindReplacement, h1, h2, h3, h4, hsel]
  · intro e he
    unfold reassignReviewer at he ⊢
    cases hval : validateAndFindReplacement db prID oldID rng with
    | error e2 => simp [hval]
    | ok v => simp [hval] at he

/-- Witness for C3: the merged PR p2 of dbW rejects reassignment with
PRMerged and the state is unchanged. -/
theorem claim3_reassign_failures_witness :
    getPRByIDWithLock dbW "p2" =
      some (PullRequest.mk "p2" "two" "a" PRStatus.MERGED false 0 (some 5) [])
    ∧ (PullRequest.mk "p2" "two" "a" PRStatus.MERGED false 0 (some 5) []).status =
        PRStatus.MERGED
    ∧ reassignReviewer dbW "p2" "c" (fun _ => 0) =
        (dbW, Except.error AppError.prMerged) :=
  ⟨by decide, by decide, (claim3_reassign_failures dbW "p2" "c" (fun _ => 0)).2.1
    (PullRequest.mk "p2" "two" "a" PRStatus.MERGED false 0 (some 5) [])
    (by decide) (by decide)⟩

/-- C4: MergePR is idempotent: after a successful merge, merging the same id
again returns the same terminal state with no error and performs no writes —
the state is unchanged, status stays MERGED, merged_at keeps the stamp of the
first merge, and the stored reviewer set is returned unchanged. -/
theorem claim4_merge_idempotent (db : DB) (prID : String) (t1 t2 : Nat)
    (pr1 : PullRequest) (h : (mergePR db prID t1).2 = Except.ok pr1) :
    (mergePR (mergePR db prID t1).1 prID t2).1 = (mergePR db prID t1).1
    ∧ ∃ pr2, (mergePR (mergePR db prID t1).1 prID t2).2 = Except.ok pr2
        ∧ pr2.status = PRStatus.MERGED
        ∧ pr2.mergedAt = pr1.mergedAt
        ∧ pr2.reviewerIDs = pr1.reviewerIDs := by
  cases hf : getPRByIDWithLock db prID with
  | none => simp [mergePR, hf] at h
  | some pr =>
    by_cases hst : pr.status = PRStatus.MERGED
    · have hfst : (mergePR db prID t1).1 = db := by simp [mergePR, hf, hst]
      have h2 : pr1 = { pr with
          status := PRStatus.MERGED
          reviewerIDs := getReviewerIDs db prID } := by
        simp [mergePR, hf, hst] at h
        exact h.symm
      rw [hfst, h2]
      refine ⟨?_, { pr with
        status := PRStatus.MERGED
        reviewerIDs := getReviewerIDs db prID }, ?_, rfl, rfl, rfl⟩
      · simp [mergePR, hf, hst]
      · simp [mergePR, hf, hst]
    · have hf' : db.prs.find? (fun p => p.id == prID) = some pr := hf
      have hpred := List.find?_some hf'
      have hid : pr.id = prID := by simpa using hpred
      have hany : db.prs.any (fun p => p.id == prID) = true :=
        List.any_eq_true.mpr ⟨pr, List.mem_of_find?_eq_some hf', hpred⟩
      have hupd : updatePRStatus db prID PRStatus.MERGED t1 =
          Except.ok { db with prs := db.prs.map (applyStatus prID PRStatus.MERGED t1) } := by
        simp [updatePRStatus, hany]
      have hfst : (mergePR db prID t1).1 =
          { db with prs := db.prs.map (applyStatus prID PRStatus.MERGED t1) } := by
        simp [mergePR, hf, hst, hupd]
      have h2 : pr1 = { pr with
          status := PRStatus.MERGED
          mergedAt := some t1
          reviewerIDs := getReviewerIDs db prID } := by
        simp [mergePR, hf, hst, hupd] at h
        exact h.symm
      have hf2 : getPRByIDWithLock
          { db with prs := db.prs.map (applyStatus prID PRStatus.MERGED t1) } prID =
          some { pr with
            status := PRStatus.MERGED
            mergedAt := some t1
            needMoreReviewers := false } := by
        unfold getPRByIDWithLock
        show (db.prs.map (applyStatus prID PRStatus.MERGED t1)).find? _ = _
        rw [find?_prs_map_applyStatus, hf']
        simp [applyStatus_merged_of_id prID t1 pr hid]
      rw [hfst]
      refine ⟨?_, { pr with
        status := PRStatus.MERGED
        mergedAt := some t1
        needMoreReviewers := false
        reviewerIDs := getReviewerIDs db prID }, ?_, rfl, ?_, ?_⟩
      · simp [mergePR, hf2]
      · simp [mergePR, hf2, getReviewerIDs]
      · simp [h2]
      · simp [h2]

/-- Witness for C4: merging the open PR p1 of dbW and then merging again. -/
theorem claim4_merge_idempotent_witness :
    (mergePR dbW "p1" 7).2 =
      Except.ok (PullRequest.mk "p1" "one" "a" PRStatus.MERGED false 0 (some 7) ["b"])
    ∧ ((mergePR (mergePR dbW "p1" 7).1 "p1" 9).1 = (mergePR dbW "p1" 7).1
      ∧ ∃ pr2, (mergePR (mergePR dbW "p1" 7).1 "p1" 9).2 = Except.ok pr2
          ∧ pr2.status = PRStatus.MERGED
          ∧ pr2.mergedAt =
              (PullRequest.mk "p1" "one" "a" PRStatus.MERGED false 0 (some 7) ["b"]).mergedAt
          ∧ pr2.reviewerIDs =
              (PullRequest.mk "p1" "one" "a" PRStatus.MERGED false 0 (some 7) ["b"]).reviewerIDs) :=
  ⟨by rfl, claim4_merge_idempotent dbW "p1" 7 9
    (PullRequest.mk "p1" "one" "a" PRStatus.MERGED false 0 (some 7) ["b"]) (by rfl)⟩

/-- C8: need_more_reviewers is true after creation iff fewer than 2 reviewers
were selected (the returned PR and the stored row agree, and the stored
reviewer rows are exactly the selected ids); merging an open PR stores status
MERGED, the merged_at stamp and need_more_reviewers = false; reviewer
reassignment never writes the pull_requests table, so it cannot re-evaluate
the flag. -/
theorem claim8_needMoreReviewers (db : DB) (prID : String) (hwf : WF db) :
    (∀ prName authorID now rng db2 pr,
        createPR db prID prName authorID now rng = (db2, Except.ok pr) →
          (pr.needMoreReviewers = true ↔ pr.reviewerIDs.length < 2)
          ∧ ∃ row, getPRByID db2 prID = some row
              ∧ row.needMoreReviewers = pr.needMoreReviewers
              ∧ row.status = PRStatus.OPEN
              ∧ getReviewerIDs db2 prID = pr.reviewerIDs)
    ∧ (∀ now p0, getPRByID db prID = some p0 → p0.status ≠ PRStatus.MERGED →
        ∃ row, getPRByID (mergePR db prID now).1 prID = some row
          ∧ row.needMoreReviewers = false
          ∧ row.status = PRStatus.MERGED
          ∧ row.mergedAt = some now)
    ∧ (∀ oldID rng, ((reassignReviewer db prID oldID rng).1).prs = db.prs) := by
  obtain ⟨husers, hprs, hrevpr, hrevuser⟩ := hwf
  refine ⟨?_, ?_, ?_⟩
  · intro prName authorID now rng db2 pr h
    obtain ⟨teamID, hteam, hex, hpr, hdbprs, hdbrev, hdbusers, hdbteams⟩ :=
      createPR_ok db prID prName authorID now rng db2 pr h
    have hnone : db.prs.find? (fun p => p.id == prID) = none := by
      rw [List.find?_eq_none]
      intro p hp
      have := List.any_eq_false.mp hex p hp
      simpa using this
    have hrow : getPRByID db2 prID = some { pr with reviewerIDs := [] } := by
      unfold getPRByID
      rw [hdbprs, List.find?_append, hnone]
      have : pr.id = prID := by rw [hpr]
      simp [this]
    have hold : getReviewerIDs db prID = [] := by
      unfold getReviewerIDs
      have : db.reviewers.filter (fun r => r.pullRequestId == prID) = [] := by
        rw [List.filter_eq_nil_iff]
        intro r hr
        obtain ⟨p, hp, hpid⟩ := hrevpr r hr
        have hnp := List.any_eq_false.mp hex p hp
        simp only [beq_iff_eq]
        intro hcontra
        rw [hcontra] at hpid
        have hnp' : ¬ p.id = prID := by simpa using hnp
        exact hnp' hpid
      rw [this]
      rfl
    have hrev2 : getReviewerIDs db2 prID = pr.reviewerIDs := by
      unfold getReviewerIDs
      rw [hdbrev, List.filter_append, List.map_append]
      have h1 : (db.reviewers.filter (fun r => r.pullRequestId == prID)).map
          Reviewer.userId = [] := by
        have := hold
        unfold getReviewerIDs at this
        rw [this]
      rw [h1, revRows_of_insert]
      rw [hpr]
      simp
    refine ⟨?_, { pr with reviewerIDs := [] }, hrow, rfl, ?_, hrev2⟩
    · rw [hpr]
      simp
    · rw [hpr]
  · intro now p0 hfind hst
    obtain ⟨hfst, hret, hrow⟩ := mergePR_open db prID now p0 hfind hst
    exact ⟨{ p0 with
        status := PRStatus.MERGED
        mergedAt := some now
        needMoreReviewers := false }, hrow, rfl, rfl, rfl⟩
  · intro oldID rng
    unfold reassignReviewer
    cases hval : validateAndFindReplacement db prID oldID rng with
    | error e => rfl
    | ok v => rfl

/-- Witness for C8 at dbW and the fresh PR id p3. -/
theorem claim8_needMoreReviewers_witness :
    WF dbW
    ∧ ((∀ prName authorID now rng db2 pr,
        createPR dbW "p3" prName authorID now rng = (db2, Except.ok pr) →
          (pr.needMoreReviewers = true ↔ pr.reviewerIDs.length < 2)
          ∧ ∃ row, getPRByID db2 "p3" = some row
              ∧ row.needMoreReviewers = pr.needMoreReviewers
              ∧ row.status = PRStatus.OPEN
              ∧ getReviewerIDs db2 "p3" = pr.reviewerIDs)
      ∧ (∀ now p0, getPRByID dbW "p3" = some p0 → p0.status ≠ PRStatus.MERGED →
          ∃ row, getPRByID (mergePR dbW "p3" now).1 "p3" = some row
            ∧ row.needMoreReviewers = false
            ∧ row.status = PRStatus.MERGED
            ∧ row.mergedAt = some now)
      ∧ (∀ oldID rng, ((reassignReviewer dbW "p3" oldID rng).1).prs = dbW.prs)) :=
  ⟨by unfold WF; decide, claim8_needMoreReviewers dbW "p3" (by unfold WF; decide)⟩

theorem deactivateUsers_snd (db : DB) (teamID : Nat) :
    (deactivateUsersByTeamID db teamID).2 = activeTeamUserIDs db teamID := rfl

theorem deactivateUsers_fst_open (db : DB) (teamID : Nat) (ids : List String) :
    getOpenPRsByReviewers (deactivateUsersByTeamID db teamID).1 ids =
      getOpenPRsByReviewers db ids := rfl

theorem mem_openPRIDs {db : DB} {ids : List String} {x : String} :
    x ∈ openPRIDsOfReviewers db ids ↔
      ∃ r ∈ db.reviewers, r.pullRequestId = x ∧ r.userId ∈ ids
        ∧ ∃ p ∈ db.prs, p.id = x ∧ p.status = PRStatus.OPEN := by
  unfold openPRIDsOfReviewers
  rw [List.mem_dedup]
  simp only [List.mem_map, List.mem_filter, Bool.and_eq_true, beq_iff_eq,
    List.any_eq_true, List.elem_eq_mem, decide_eq_true_eq]
  constructor
  · rintro ⟨r, ⟨hr, hu, p, hp, hpid, hps⟩, rfl⟩
    exact ⟨r, hr, rfl, hu, p, hp, hpid, hps⟩
  · rintro ⟨r, hr, rfl, hu, p, hp, hpid, hps⟩
    exact ⟨r, ⟨hr, hu, p, hp, hpid, hps⟩, rfl⟩

theorem touchedPRs_filter_eq (db : DB) (ids : List String)
    (hprs : (db.prs.map PullRequest.id).Nodup) :
    db.prs.filter (fun pr => (openPRIDsOfReviewers db ids).contains pr.id) =
      db.prs.filter (fun pr => pr.status == PRStatus.OPEN
        && db.reviewers.any (fun r => r.pullRequestId == pr.id
            && ids.contains r.userId)) := by
  apply List.filter_congr
  intro pr hpr
  rw [Bool.eq_iff_iff]
  simp only [List.elem_eq_mem, decide_eq_true_eq, Bool.and_eq_true, beq_iff_eq,
    List.any_eq_true]
  constructor
  · intro hmem
    obtain ⟨r, hr, hrpid, hru, p, hp, hpid, hps⟩ := mem_openPRIDs.mp hmem
    have hpp : p = pr := List.inj_on_of_nodup_map hprs hp hpr hpid
    rw [hpp] at hps
    exact ⟨hps, r, hr, hrpid, hru⟩
  · rintro ⟨hopen, r, hr, hpid, hru⟩
    exact mem_openPRIDs.mpr ⟨r, hr, hpid, hru, pr, hpr, rfl, hopen⟩

theorem specTouched_nil (db : DB) : specTouchedOpenPRCount db [] = 0 := by
  unfold specTouchedOpenPRCount
  rw [List.filter_eq_nil_iff.mpr (fun pr _ => by simp)]
  rfl

theorem getOpenPRs_length_eq (db : DB) (ids : List String)
    (hprs : (db.prs.map PullRequest.id).Nodup) :
    (getOpenPRsByReviewers db ids).length = specTouchedOpenPRCount db ids := by
  unfold getOpenPRsByReviewers specTouchedOpenPRCount
  by_cases he : (openPRIDsOfReviewers db ids).isEmpty
  · rw [if_pos he]
    have hnil : openPRIDsOfReviewers db ids = [] := by
      cases hids : openPRIDsOfReviewers db ids with
      | nil => rfl
      | cons a l => rw [hids] at he; simp [List.isEmpty] at he
    have hfnil : db.prs.filter (fun pr => pr.status == PRStatus.OPEN
        && db.reviewers.any (fun r => r.pullRequestId == pr.id
            && ids.contains r.userId)) = [] := by
      rw [List.filter_eq_nil_iff]
      intro pr hpr hcond
      simp only [Bool.and_eq_true, beq_iff_eq, List.any_eq_true, List.elem_eq_mem,
        decide_eq_true_eq] at hcond
      obtain ⟨hopen, r, hr, hpid, hru⟩ := hcond
      have : pr.id ∈ openPRIDsOfReviewers db ids :=
        mem_openPRIDs.mpr ⟨r, hr, hpid, hru, pr, hpr, rfl, hopen⟩
      rw [hnil] at this
      simp at this
    rw [hfnil]
  · rw [if_neg he]
    unfold mapReviewersToPRs
    rw [List.length_map, touchedPRs_filter_eq db ids hprs]

theorem deactivate_noop (db : DB) (teamID : Nat)
    (h : activeTeamUserIDs db teamID = []) :
    (deactivateUsersByTeamID db teamID).1 = db := by
  have hall : ∀ u ∈ db.users, (u.teamId == teamID && u.isActive) = false := by
    intro u hu
    by_contra hne
    have hmem : u.id ∈ activeTeamUserIDs db teamID := by
      unfold activeTeamUserIDs
      refine List.mem_map.mpr ⟨u, List.mem_filter.mpr ⟨hu, ?_⟩, rfl⟩
      cases hb : (u.teamId == teamID && u.isActive) with
      | false => exact absurd hb hne
      | true => rfl
    rw [h] at hmem
    simp at hmem
  have husers : db.users.map (fun u =>
      if u.teamId == teamID && u.isActive then { u with isActive := false } else u) =
      db.users := by
    rw [List.map_congr_left (fun u hu => by rw [if_neg (by simp [hall u hu])]),
      List.map_id']
  show { db with users := _ } = db
  rw [husers]

/-- C5: DeactivateTeam returns the number of users it deactivated and the
number of distinct OPEN PRs having a deactivated reviewer (PRs touched, not
slots); with no active user it returns (0, 0) leaving the state unchanged;
an unknown team name fails with NotFound. -/
theorem claim5_deactivateTeam (db : DB) (teamName : String) (rng : Nat → Nat → Nat)
    (hwf : WF db) :
    (getTeamByName db teamName = none →
      deactivateTeam db teamName rng = (db, Except.error AppError.notFound))
    ∧ (∀ team, getTeamByName db teamName = some team →
        (deactivateTeam db teamName rng).2 = Except.ok
          ((activeTeamUserIDs db team.id).length,
            specTouchedOpenPRCount db (activeTeamUserIDs db team.id)))
    ∧ (∀ team, getTeamByName db teamName = some team →
        activeTeamUserIDs db team.id = [] →
        deactivateTeam db teamName rng = (db, Except.ok (0, 0))) := by
  obtain ⟨husers, hprs, hrevpr, hrevuser⟩ := hwf
  refine ⟨?_, ?_, ?_⟩
  · intro h
    simp [deactivateTeam, h]
  · intro team hteam
    have hlen := getOpenPRs_length_eq db (activeTeamUserIDs db team.id) hprs
    by_cases h0 : (activeTeamUserIDs db team.id).length = 0
    · have hnil : activeTeamUserIDs db team.id = [] := List.length_eq_zero.mp h0
      simp [deactivateTeam, hteam, deactivateUsers_snd, h0, hnil, specTouched_nil]
    · by_cases h1 : (getOpenPRsByReviewers db (activeTeamUserIDs db team.id)).length = 0
      · simp [deactivateTeam, hteam, deactivateUsers_snd, deactivateUsers_fst_open,
          h0, h1, ← hlen]
      · simp [deactivateTeam, hteam, deactivateUsers_snd, deactivateUsers_fst_open,
          h0, h1, ← hlen]
  · intro team hteam hnil
    have h0 : (activeTeamUserIDs db team.id).length = 0 := by rw [hnil]; rfl
    have hdb1 := deactivate_noop db team.id hnil
    simp [deactivateTeam, hteam, deactivateUsers_snd, h0, hdb1]

/-- Witness for C5: deactivating team beta of dbW deactivates x and touches
no open PR. -/
theorem claim5_deactivateTeam_witness :
    WF dbW
    ∧ getTeamByName dbW "beta" = some (Team.mk 2 "beta")
    ∧ (deactivateTeam dbW "beta" (fun _ _ => 0)).2 = Except.ok
        ((activeTeamUserIDs dbW (Team.mk 2 "beta").id).length,
          specTouchedOpenPRCount dbW (activeTeamUserIDs dbW (Team.mk 2 "beta").id)) :=
  ⟨by unfold WF; decide, by decide,
    (claim5_deactivateTeam dbW "beta" (fun _ _ => 0) (by unfold WF; decide)).2.1
      (Team.mk 2 "beta") (by decide)⟩

/-! Lemmas about replaceFirst and the cascade's per-slot invariant. -/

theorem replaceFirst_length (l : List String) (oldID newID : String) :
    (replaceFirst l oldID newID).length = l.length := by
  induction l with
  | nil => rfl
  | cons x rest ih =>
    unfold replaceFirst
    by_cases h : x == oldID <;> simp [h, ih]

theorem mem_replaceFirst_of_ne (l : List String) (oldID newID x : String)
    (hx : x ∈ l) (hne : x ≠ oldID) : x ∈ replaceFirst l oldID newID := by
  induction l with
  | nil => simp at hx
  | cons y rest ih =>
    unfold replaceFirst
    rcases List.mem_cons.mp hx with rfl | hx2
    · rw [if_neg (by simpa using hne)]
      exact List.mem_cons_self _ _
    · by_cases h : y == oldID
      · rw [if_pos h]
        exact List.mem_cons_of_mem _ hx2
      · rw [if_neg h]
        exact List.mem_cons_of_mem _ (ih hx2)

theorem replaceFirst_perm (l : List String) (oldID newID : String)
    (hnd : l.Nodup) (hold : oldID ∈ l) :
    List.Perm (replaceFirst l oldID newID)
      (l.filter (fun x => !(x == oldID)) ++ [newID]) := by
  induction l with
  | nil => simp at hold
  | cons y rest ih =>
    unfold replaceFirst
    by_cases h : y = oldID
    · rw [if_pos (by simpa using h)]
      rw [List.filter_cons_of_neg (by simpa using h)]
      have hrest : rest.filter (fun x => !(x == oldID)) = rest := by
        rw [List.filter_eq_self]
        intro a ha
        have : a ≠ oldID := by
          intro hcontra
          rw [h] at hnd
          exact (List.nodup_cons.mp hnd).1 (hcontra ▸ ha)
        simpa using this
      rw [hrest]
      exact (List.perm_append_singleton newID rest).symm
    · rw [if_neg (by simpa using h)]
      rw [List.filter_cons_of_pos (by simpa using h)]
      have hold' : oldID ∈ rest := by
        rcases List.mem_cons.mp hold with hl | hl
        · exact absurd hl.symm h
        · exact hl
      exact (ih (List.nodup_cons.mp hnd).2 hold').cons y

/-- One unfolding step of cascadeSlots used by the invariant proofs. -/
theorem cascadeSlots_cons (db0 : DB) (teamID : Nat) (ds : List String)
    (pr : PullRequest) (rng : Nat → Nat → Nat) (oldID : String)
    (rest : List String) (db : DB) (cur : List String) (k : Nat) :
    cascadeSlots db0 teamID ds pr rng (oldID :: rest) db cur k =
      if ds.contains oldID then
        match getRandomActiveReviewers db0 teamID (excludeIDs pr cur) 1 (rng k) with
        | [] => cascadeSlots db0 teamID ds pr rng rest db cur (k + 1)
        | newID :: _ =>
          cascadeSlots db0 teamID ds pr rng rest
            (replaceReviewer db pr.id oldID newID) (replaceFirst cur oldID newID) (k + 1)
      else cascadeSlots db0 teamID ds pr rng rest db cur k := rfl

theorem cascadeSlots_inv (db0 : DB) (teamID : Nat) (ds : List String)
    (pr : PullRequest) (rng : Nat → Nat → Nat) :
    ∀ (olds : List String) (db : DB) (cur : List String) (k : Nat),
      List.Perm (getReviewerIDs db pr.id) cur →
      cur.Nodup →
      pr.authorId ∉ cur →
      (∀ o ∈ olds, o ∈ cur) →
      olds.Nodup →
      List.Perm
          (getReviewerIDs (cascadeSlots db0 teamID ds pr rng olds db cur k).1 pr.id)
          (cascadeSlots db0 teamID ds pr rng olds db cur k).2.1
        ∧ (cascadeSlots db0 teamID ds pr rng olds db cur k).2.1.Nodup
        ∧ pr.authorId ∉ (cascadeSlots db0 teamID ds pr rng olds db cur k).2.1
        ∧ (cascadeSlots db0 teamID ds pr rng olds db cur k).2.1.length = cur.length
        ∧ ∀ q, q ≠ pr.id →
            getReviewerIDs (cascadeSlots db0 teamID ds pr rng olds db cur k).1 q =
              getReviewerIDs db q := by
  intro olds
  induction olds with
  | nil =>
    intro db cur k hsync hnd hauth _ _
    exact ⟨hsync, hnd, hauth, rfl, fun q _ => rfl⟩
  | cons oldID rest ih =>
    intro db cur k hsync hnd hauth holds holdsnd
    rw [cascadeSlots_cons]
    by_cases hds : ds.contains oldID
    · rw [if_pos hds]
      cases hsel : getRandomActiveReviewers db0 teamID (excludeIDs pr cur) 1 (rng k) with
      | nil =>
        exact ih db cur (k + 1) hsync hnd hauth
          (fun o ho => holds o (List.mem_cons_of_mem _ ho))
          (List.nodup_cons.mp holdsnd).2
      | cons newID tail =>
        have hnew : newID ∈ eligiblePool db0 teamID (excludeIDs pr cur) :=
          gRAR_mem db0 teamID (excludeIDs pr cur) 1 (rng k) newID
            (by rw [hsel]; exact List.mem_cons_self _ _)
        obtain ⟨u, hu, huid, hut, hua, hex⟩ := mem_eligiblePool.mp hnew
        have hnewcur : newID ∉ cur := fun hc => hex (mem_excludeIDs.mpr (Or.inl hc))
        have hnewauth : newID ≠ pr.authorId := fun hc =>
          hex (mem_excludeIDs.mpr (Or.inr hc))
        have holdcur : oldID ∈ cur := holds oldID (List.mem_cons_self _ _)
        have hfilter : List.Perm
            (getReviewerIDs (replaceReviewer db pr.id oldID newID) pr.id)
            (replaceFirst cur oldID newID) := by
          rw [getReviewerIDs_replaceReviewer_same]
          have h1 : List.Perm ((getReviewerIDs db pr.id).filter (fun x => !(x == oldID)))
              (cur.filter (fun x => !(x == oldID))) := hsync.filter _
          exact ((h1.append (List.Perm.refl [newID])).trans
            (replaceFirst_perm cur oldID newID hnd holdcur).symm)
        have hnd' : (replaceFirst cur oldID newID).Nodup := by
          refine ((replaceFirst_perm cur oldID newID hnd holdcur).nodup_iff).mpr ?_
          rw [List.nodup_append]
          refine ⟨hnd.filter _, List.nodup_singleton newID, ?_⟩
          intro a ha hb
          have : a = newID := by simpa using hb
          rw [this] at ha
          exact hnewcur (List.mem_filter.mp ha).1
        have hauth' : pr.authorId ∉ replaceFirst cur oldID newID := by
          intro hmem
          have := (replaceFirst_perm cur oldID newID hnd holdcur).mem_iff.mp hmem
          rcases List.mem_append.mp this with hl | hl
          · exact hauth (List.mem_filter.mp hl).1
          · have hl' : pr.authorId = newID := by simpa using hl
            exact hnewauth hl'.symm
        have hrestmem : ∀ o ∈ rest, o ∈ replaceFirst cur oldID newID := by
          intro o ho
          have hone : o ≠ oldID := by
            intro hcontra
            exact (List.nodup_cons.mp holdsnd).1 (hcontra ▸ ho)
          exact mem_replaceFirst_of_ne cur oldID newID o (holds o
            (List.mem_cons_of_mem _ ho)) hone
        obtain ⟨ih1, ih2, ih3, ih4, ih5⟩ := ih (replaceReviewer db pr.id oldID newID)
          (replaceFirst cur oldID newID) (k + 1) hfilter hnd' hauth' hrestmem
          (List.nodup_cons.mp holdsnd).2
        refine ⟨ih1, ih2, ih3, ?_, ?_⟩
        · rw [ih4, replaceFirst_length]
        · intro q hq
          rw [ih5 q hq, getReviewerIDs_replaceReviewer_other db pr.id q oldID newID hq]
    · rw [if_neg hds]
      exact ih db cur k hsync hnd hauth
        (fun o ho => holds o (List.mem_cons_of_mem _ ho))
        (List.nodup_cons.mp holdsnd).2

/-- One unfolding step of cascadePRs. -/
theorem cascadePRs_cons (db0 : DB) (teamID : Nat) (ds : List String)
    (rng : Nat → Nat → Nat) (pr : PullRequest) (rest : List PullRequest)
    (db : DB) (k : Nat) :
    cascadePRs db0 teamID ds rng (pr :: rest) db k =
      cascadePRs db0 teamID ds rng rest
        (cascadeSlots db0 teamID ds pr rng pr.reviewerIDs db pr.reviewerIDs k).1
        (cascadeSlots db0 teamID ds pr rng pr.reviewerIDs db pr.reviewerIDs k).2.2 := rfl

theorem cascadePRs_inv (db0 : DB) (teamID : Nat) (ds : List String)
    (rng : Nat → Nat → Nat) :
    ∀ (prs : List PullRequest) (db : DB) (k : Nat),
      (prs.map PullRequest.id).Nodup →
      (∀ p ∈ prs, p.reviewerIDs = getReviewerIDs db p.id) →
      (∀ p ∈ prs, (getReviewerIDs db p.id).Nodup) →
      (∀ p ∈ prs, p.authorId ∉ getReviewerIDs db p.id) →
      (∀ q, (∀ p ∈ prs, p.id ≠ q) →
          getReviewerIDs (cascadePRs db0 teamID ds rng prs db k) q =
            getReviewerIDs db q)
        ∧ (∀ q, (getReviewerIDs (cascadePRs db0 teamID ds rng prs db k) q).length =
            (getReviewerIDs db q).length)
        ∧ (∀ p ∈ prs,
            (getReviewerIDs (cascadePRs db0 teamID ds rng prs db k) p.id).Nodup
            ∧ p.authorId ∉ getReviewerIDs (cascadePRs db0 teamID ds rng prs db k) p.id) := by
  intro prs
  induction prs with
  | nil =>
    intro db k _ _ _ _
    exact ⟨fun q _ => rfl, fun q => rfl, fun p hp => absurd hp (by simp)⟩
  | cons pr rest ih =>
    intro db k hids hsync hnodup hauth
    have hmempr : pr ∈ pr :: rest := List.mem_cons_self _ _
    have hsyncpr : List.Perm (getReviewerIDs db pr.id) pr.reviewerIDs := by
      rw [hsync pr hmempr]
    have hndpr : pr.reviewerIDs.Nodup := by
      rw [hsync pr hmempr]; exact hnodup pr hmempr
    have hauthpr : pr.authorId ∉ pr.reviewerIDs := by
      rw [hsync pr hmempr]; exact hauth pr hmempr
    obtain ⟨s1, s2, s3, s4, s5⟩ := cascadeSlots_inv db0 teamID ds pr rng
      pr.reviewerIDs db pr.reviewerIDs k hsyncpr hndpr hauthpr (fun o ho => ho) hndpr
    have hids' : (pr.id :: rest.map PullRequest.id).Nodup := by simpa using hids
    have hne : ∀ p ∈ rest, p.id ≠ pr.id := by
      intro p hp hcontra
      exact (List.nodup_cons.mp hids').1
        (hcontra ▸ List.mem_map.mpr ⟨p, hp, rfl⟩)
    rw [cascadePRs_cons]
    obtain ⟨i1, i2, i3⟩ := ih
      (cascadeSlots db0 teamID ds pr rng pr.reviewerIDs db pr.reviewerIDs k).1
      (cascadeSlots db0 teamID ds pr rng pr.reviewerIDs db pr.reviewerIDs k).2.2
      (List.nodup_cons.mp hids').2
      (fun p hp => by
        rw [s5 p.id (hne p hp)]
        exact hsync p (List.mem_cons_of_mem _ hp))
      (fun p hp => by
        rw [s5 p.id (hne p hp)]
        exact hnodup p (List.mem_cons_of_mem _ hp))
      (fun p hp => by
        rw [s5 p.id (hne p hp)]
        exact hauth p (List.mem_cons_of_mem _ hp))
    refine ⟨?_, ?_, ?_⟩
    · intro q hq
      rw [i1 q (fun p hp => hq p (List.mem_cons_of_mem _ hp)),
        s5 q (fun hcontra => hq pr hmempr hcontra.symm)]
    · intro q
      by_cases hqpr : q = pr.id
      · rw [hqpr, i1 pr.id hne, s1.length_eq, s4, hsync pr hmempr]
      · rw [i2 q, s5 q (fun hcontra => hqpr hcontra)]
    · intro p hp
      rcases List.mem_cons.mp hp with rfl | hp2
      · rw [i1 p.id hne]
        constructor
        · exact (s1.nodup_iff).mpr s2
        · intro hmem
          exact s3 (s1.mem_iff.mp hmem)
      · exact i3 p hp2

theorem mapReviewersToPRs_map_id (prs : List PullRequest) (rev : List Reviewer) :
    (mapReviewersToPRs prs rev).map PullRequest.id = prs.map PullRequest.id := by
  unfold mapReviewersToPRs
  rw [List.map_map]
  exact List.map_congr_left (fun p _ => rfl)

theorem revFilter_collapse (rows : List Reviewer) (prIDs : List String) (x : String)
    (hx : prIDs.contains x = true) :
    (rows.filter (fun r => prIDs.contains r.pullRequestId)).filter
        (fun r : Reviewer => r.pullRequestId == x) =
      rows.filter (fun r => r.pullRequestId == x) := by
  rw [List.filter_filter]
  apply List.filter_congr
  intro r _
  by_cases h : r.pullRequestId = x
  · have hx' : x ∈ prIDs := by simpa using hx
    simp [h, hx']
  · simp [h]

theorem mem_getOpenPRs (db : DB) (ids : List String) (p : PullRequest)
    (hp : p ∈ getOpenPRsByReviewers db ids) :
    ∃ p0 ∈ db.prs, p = { p0 with reviewerIDs := getReviewerIDs db p0.id } := by
  unfold getOpenPRsByReviewers at hp
  by_cases he : (openPRIDsOfReviewers db ids).isEmpty
  · rw [if_pos he] at hp
    simp at hp
  · rw [if_neg he] at hp
    unfold mapReviewersToPRs at hp
    obtain ⟨p0, hp0, rfl⟩ := List.mem_map.mp hp
    have hmem := List.mem_filter.mp hp0
    refine ⟨p0, hmem.1, ?_⟩
    have hXY : ((db.reviewers.filter (fun r =>
          (openPRIDsOfReviewers db ids).contains r.pullRequestId)).filter
            (fun r : Reviewer => r.pullRequestId == p0.id)).map Reviewer.userId =
        getReviewerIDs db p0.id := by
      unfold getReviewerIDs
      rw [revFilter_collapse _ _ _ hmem.2]
    rw [hXY]

theorem getOpenPRs_ids_nodup (db : DB) (ids : List String)
    (hprs : (db.prs.map PullRequest.id).Nodup) :
    ((getOpenPRsByReviewers db ids).map PullRequest.id).Nodup := by
  unfold getOpenPRsByReviewers
  by_cases he : (openPRIDsOfReviewers db ids).isEmpty
  · simp [he]
  · rw [if_neg he, mapReviewersToPRs_map_id]
    exact List.Nodup.sublist ((List.filter_sublist _).map _) hprs

theorem cascadeSlots_keeps (db0 : DB) (teamID : Nat) (ds : List String)
    (pr : PullRequest) (rng : Nat → Nat → Nat) :
    ∀ (olds : List String) (db : DB) (cur : List String) (k : Nat),
      (cascadeSlots db0 teamID ds pr rng olds db cur k).1.prs = db.prs
      ∧ (cascadeSlots db0 teamID ds pr rng olds db cur k).1.users = db.users
      ∧ (cascadeSlots db0 teamID ds pr rng olds db cur k).1.teams = db.teams := by
  intro olds
  induction olds with
  | nil => intro db cur k; exact ⟨rfl, rfl, rfl⟩
  | cons oldID rest ih =>
    intro db cur k
    rw [cascadeSlots_cons]
    by_cases hds : ds.contains oldID
    · rw [if_pos hds]
      cases hsel : getRandomActiveReviewers db0 teamID (excludeIDs pr cur) 1 (rng k) with
      | nil => exact ih db cur (k + 1)
      | cons newID tail =>
        exact ih (replaceReviewer db pr.id oldID newID) (replaceFirst cur oldID newID) (k + 1)
    · rw [if_neg hds]
      exact ih db cur k

theorem cascadePRs_keeps (db0 : DB) (teamID : Nat) (ds : List String)
    (rng : Nat → Nat → Nat) :
    ∀ (prs : List PullRequest) (db : DB) (k : Nat),
      (cascadePRs db0 teamID ds rng prs db k).prs = db.prs
      ∧ (cascadePRs db0 teamID ds rng prs db k).users = db.users
      ∧ (cascadePRs db0 teamID ds rng prs db k).teams = db.teams := by
  intro prs
  induction prs with
  | nil => intro db k; exact ⟨rfl, rfl, rfl⟩
  | cons pr rest ih =>
    intro db k
    rw [cascadePRs_cons]
    obtain ⟨h1, h2, h3⟩ := ih
      (cascadeSlots db0 teamID ds pr rng pr.reviewerIDs db pr.reviewerIDs k).1
      (cascadeSlots db0 teamID ds pr rng pr.reviewerIDs db pr.reviewerIDs k).2.2
    obtain ⟨g1, g2, g3⟩ := cascadeSlots_keeps db0 teamID ds pr rng
      pr.reviewerIDs db pr.reviewerIDs k
    exact ⟨h1.trans g1, h2.trans g2, h3.trans g3⟩

/-- Reviewer provenance through the slot loop: every reviewer row of the
result was already present, or its user was active in the pre-transaction
state db0 that the pool connection reads. -/
theorem cascadeSlots_rows (db0 : DB) (teamID : Nat) (ds : List String)
    (pr : PullRequest) (rng : Nat → Nat → Nat) :
    ∀ (olds : List String) (db : DB) (cur : List String) (k : Nat),
      ∀ r ∈ (cascadeSlots db0 teamID ds pr rng olds db cur k).1.reviewers,
        r ∈ db.reviewers ∨ ∃ u ∈ db0.users, u.id = r.userId ∧ u.isActive = true := by
  intro olds
  induction olds with
  | nil => intro db cur k r hr; exact Or.inl hr
  | cons oldID rest ih =>
    intro db cur k r hr
    rw [cascadeSlots_cons] at hr
    by_cases hds : ds.contains oldID
    · rw [if_pos hds] at hr
      cases hsel : getRandomActiveReviewers db0 teamID (excludeIDs pr cur) 1 (rng k) with
      | nil =>
        rw [hsel] at hr
        exact ih db cur (k + 1) r hr
      | cons newID tail =>
        rw [hsel] at hr
        rcases ih (replaceReviewer db pr.id oldID newID)
            (replaceFirst cur oldID newID) (k + 1) r hr with hmem | hact
        · unfold replaceReviewer at hmem
          rcases List.mem_append.mp hmem with hl | hl
          · exact Or.inl (List.mem_filter.mp hl).1
          · have hrnew : r = Reviewer.mk pr.id newID := by simpa using hl
            have : newID ∈ eligiblePool db0 teamID (excludeIDs pr cur) :=
              gRAR_mem db0 teamID (excludeIDs pr cur) 1 (rng k) newID
                (by rw [hsel]; exact List.mem_cons_self _ _)
            obtain ⟨u, hu, huid, hut, hua, hex⟩ := mem_eligiblePool.mp this
            exact Or.inr ⟨u, hu, by rw [hrnew, huid], hua⟩
        · exact Or.inr hact
    · rw [if_neg hds] at hr
      exact ih db cur k r hr

theorem cascadePRs_rows (db0 : DB) (teamID : Nat) (ds : List String)
    (rng : Nat → Nat → Nat) :
    ∀ (prs : List PullRequest) (db : DB) (k : Nat),
      ∀ r ∈ (cascadePRs db0 teamID ds rng prs db k).reviewers,
        r ∈ db.reviewers ∨ ∃ u ∈ db0.users, u.id = r.userId ∧ u.isActive = true := by
  intro prs
  induction prs with
  | nil => intro db k r hr; exact Or.inl hr
  | cons pr rest ih =>
    intro db k r hr
    rw [cascadePRs_cons] at hr
    rcases ih _ _ r hr with hmem | hact
    · rcases cascadeSlots_rows db0 teamID ds pr rng pr.reviewerIDs db
          pr.reviewerIDs k r hmem with hmem2 | hact2
      · exact Or.inl hmem2
      · exact Or.inr hact2
    · exact Or.inr hact

theorem deactivateTeam_props (db : DB) (teamName : String) (rng : Nat → Nat → Nat)
    (hwf : WF db) (hrev : RevSetsOK db) :
    (∀ q, (getReviewerIDs (deactivateTeam db teamName rng).1 q).length =
        (getReviewerIDs db q).length)
    ∧ (∀ p ∈ db.prs,
        (getReviewerIDs (deactivateTeam db teamName rng).1 p.id).Nodup
        ∧ p.authorId ∉ getReviewerIDs (deactivateTeam db teamName rng).1 p.id)
    ∧ ((deactivateTeam db teamName rng).1).prs = db.prs := by
  obtain ⟨husers, hprs, hrevpr, hrevuser⟩ := hwf
  obtain ⟨hnd, hna⟩ := hrev
  cases hteam : getTeamByName db teamName with
  | none =>
    have h1 : (deactivateTeam db teamName rng).1 = db := by simp [deactivateTeam, hteam]
    rw [h1]
    exact ⟨fun q => rfl, fun p hp => ⟨hnd p hp, hna p hp⟩, rfl⟩
  | some team =>
    by_cases h0 : (activeTeamUserIDs db team.id).length = 0
    · have heq : (deactivateTeam db teamName rng).1 =
          (deactivateUsersByTeamID db team.id).1 := by
        simp [deactivateTeam, hteam, deactivateUsers_snd, h0]
      rw [heq]
      exact ⟨fun q => rfl, fun p hp => ⟨hnd p hp, hna p hp⟩, rfl⟩
    · by_cases h1 : (getOpenPRsByReviewers db (activeTeamUserIDs db team.id)).length = 0
      · have heq : (deactivateTeam db teamName rng).1 =
            (deactivateUsersByTeamID db team.id).1 := by
          simp [deactivateTeam, hteam, deactivateUsers_snd, deactivateUsers_fst_open,
            h0, h1]
        rw [heq]
        exact ⟨fun q => rfl, fun p hp => ⟨hnd p hp, hna p hp⟩, rfl⟩
      · have heq : (deactivateTeam db teamName rng).1 =
            cascadePRs db team.id (activeTeamUserIDs db team.id) rng
              (getOpenPRsByReviewers db (activeTeamUserIDs db team.id))
              (deactivateUsersByTeamID db team.id).1 0 := by
          simp [deactivateTeam, hteam, deactivateUsers_snd, deactivateUsers_fst_open,
            h0, h1]
        rw [heq]
        obtain ⟨i1, i2, i3⟩ := cascadePRs_inv db team.id
          (activeTeamUserIDs db team.id) rng
          (getOpenPRsByReviewers db (activeTeamUserIDs db team.id))
          (deactivateUsersByTeamID db team.id).1 0
          (getOpenPRs_ids_nodup db (activeTeamUserIDs db team.id) hprs)
          (fun p hp => by
            obtain ⟨p0, hp0, rfl⟩ := mem_getOpenPRs db (activeTeamUserIDs db team.id) p hp
            rfl)
          (fun p hp => by
            obtain ⟨p0, hp0, rfl⟩ := mem_getOpenPRs db (activeTeamUserIDs db team.id) p hp
            exact hnd p0 hp0)
          (fun p hp => by
            obtain ⟨p0, hp0, rfl⟩ := mem_getOpenPRs db (activeTeamUserIDs db team.id) p hp
            exact hna p0 hp0)
        refine ⟨fun q => i2 q, ?_, ?_⟩
        · intro p hp
          by_cases hx : ∃ pp ∈ getOpenPRsByReviewers db (activeTeamUserIDs db team.id),
              pp.id = p.id
          · obtain ⟨pp, hpp, hppid⟩ := hx
            obtain ⟨p0, hp0, hppeq⟩ := mem_getOpenPRs db (activeTeamUserIDs db team.id)
              pp hpp
            have hp0id : p0.id = p.id := by rw [← hppid, hppeq]
            have hp0p : p0 = p := List.inj_on_of_nodup_map hprs hp0 hp hp0id
            have hppauth : pp.authorId = p.authorId := by rw [hppeq, ← hp0p]
            obtain ⟨c1, c2⟩ := i3 pp hpp
            rw [hppid] at c1 c2
            rw [hppauth] at c2
            exact ⟨c1, c2⟩
          · have hupd := i1 p.id (fun pp hpp hc => hx ⟨pp, hpp, hc⟩)
            rw [hupd]
            exact ⟨hnd p hp, hna p hp⟩
        · exact (cascadePRs_keeps db team.id (activeTeamUserIDs db team.id) rng
            (getOpenPRsByReviewers db (activeTeamUserIDs db team.id))
            (deactivateUsersByTeamID db team.id).1 0).1

theorem deactivateTeam_rows (db : DB) (teamName : String) (rng : Nat → Nat → Nat) :
    ∀ r ∈ (deactivateTeam db teamName rng).1.reviewers,
      r ∈ db.reviewers ∨ ∃ u ∈ db.users, u.id = r.userId ∧ u.isActive = true := by
  intro r hr
  cases hteam : getTeamByName db teamName with
  | none =>
    rw [show (deactivateTeam db teamName rng).1 = db by simp [deactivateTeam, hteam]] at hr
    exact Or.inl hr
  | some team =>
    by_cases h0 : (activeTeamUserIDs db team.id).length = 0
    · rw [show (deactivateTeam db teamName rng).1 = (deactivateUsersByTeamID db team.id).1
        by simp [deactivateTeam, hteam, deactivateUsers_snd, h0]] at hr
      exact Or.inl hr
    · by_cases h1 : (getOpenPRsByReviewers db (activeTeamUserIDs db team.id)).length = 0
      · rw [show (deactivateTeam db teamName rng).1 = (deactivateUsersByTeamID db team.id).1
          by simp [deactivateTeam, hteam, deactivateUsers_snd, deactivateUsers_fst_open,
            h0, h1]] at hr
        exact Or.inl hr
      · rw [show (deactivateTeam db teamName rng).1 =
            cascadePRs db team.id (activeTeamUserIDs db team.id) rng
              (getOpenPRsByReviewers db (activeTeamUserIDs db team.id))
              (deactivateUsersByTeamID db team.id).1 0
          by simp [deactivateTeam, hteam, deactivateUsers_snd, deactivateUsers_fst_open,
            h0, h1]] at hr
        rcases cascadePRs_rows db team.id (activeTeamUserIDs db team.id) rng
            (getOpenPRsByReviewers db (activeTeamUserIDs db team.id))
            (deactivateUsersByTeamID db team.id).1 0 r hr with h | h
        · exact Or.inl h
        · exact Or.inr h

theorem deactivateTeam_no_other_error (db : DB) (teamName : String)
    (rng : Nat → Nat → Nat) :
    (∀ e, (deactivateTeam db teamName rng).2 = Except.error e → e = AppError.notFound)
    ∧ (∀ team, getTeamByName db teamName = some team →
        ∃ c1 c2, (deactivateTeam db teamName rng).2 = Except.ok (c1, c2)) := by
  constructor
  · intro e he
    cases hteam : getTeamByName db teamName with
    | none =>
      rw [show (deactivateTeam db teamName rng).2 = Except.error AppError.notFound
        by simp [deactivateTeam, hteam]] at he
      exact (Except.error.injEq _ _).mp he.symm
    | some team =>
      by_cases h0 : (activeTeamUserIDs db team.id).length = 0
      · rw [show (deactivateTeam db teamName rng).2 = Except.ok (0, 0)
          by simp [deactivateTeam, hteam, deactivateUsers_snd, h0]] at he
        exact absurd he (by simp)
      · by_cases h1 : (getOpenPRsByReviewers db (activeTeamUserIDs db team.id)).length = 0
        · rw [show (deactivateTeam db teamName rng).2 =
              Except.ok ((activeTeamUserIDs db team.id).length, 0)
            by simp [deactivateTeam, hteam, deactivateUsers_snd,
              deactivateUsers_fst_open, h0, h1]] at he
          exact absurd he (by simp)
        · rw [show (deactivateTeam db teamName rng).2 =
              Except.ok ((activeTeamUserIDs db team.id).length,
                (getOpenPRsByReviewers db (activeTeamUserIDs db team.id)).length)
            by simp [deactivateTeam, hteam, deactivateUsers_snd,
              deactivateUsers_fst_open, h0, h1]] at he
          exact absurd he (by simp)
  · intro team hteam
    by_cases h0 : (activeTeamUserIDs db team.id).length = 0
    · exact ⟨0, 0, by simp [deactivateTeam, hteam, deactivateUsers_snd, h0]⟩
    · by_cases h1 : (getOpenPRsByReviewers db (activeTeamUserIDs db team.id)).length = 0
      · exact ⟨(activeTeamUserIDs db team.id).length, 0,
          by simp [deactivateTeam, hteam, deactivateUsers_snd,
            deactivateUsers_fst_open, h0, h1]⟩
      · exact ⟨(activeTeamUserIDs db team.id).length,
          (getOpenPRsByReviewers db (activeTeamUserIDs db team.id)).length,
          by simp [deactivateTeam, hteam, deactivateUsers_snd,
            deactivateUsers_fst_open, h0, h1]⟩

theorem insertedRows_other (l : List String) (prID q : String) (h : q ≠ prID) :
    (l.map (fun x => Reviewer.mk prID x)).filter
      (fun r : Reviewer => r.pullRequestId == q) = [] := by
  induction l with
  | nil => rfl
  | cons x rest ih => simp [Ne.symm h, ih]

theorem getReviewerIDs_eq_nil_of_absent (db : DB) (prID : String)
    (hrevpr : ∀ r ∈ db.reviewers, ∃ pr ∈ db.prs, pr.id = r.pullRequestId)
    (hex : db.prs.any (fun p => p.id == prID) = false) :
    getReviewerIDs db prID = [] := by
  unfold getReviewerIDs
  rw [List.filter_eq_nil_iff.mpr ?_]
  · rfl
  · intro r hr
    obtain ⟨p, hp, hpid⟩ := hrevpr r hr
    have hnp := List.any_eq_false.mp hex p hp
    simp only [beq_iff_eq]
    intro hcontra
    rw [hcontra] at hpid
    have hnp' : ¬ p.id = prID := by simpa using hnp
    exact hnp' hpid

theorem createPR_err (db : DB) (prID prName authorID : String) (now : Nat)
    (rng : Nat → Nat) (e : AppError)
    (h : (createPR db prID prName authorID now rng).2 = Except.error e) :
    (createPR db prID prName authorID now rng).1 = db := by
  unfold createPR at h ⊢
  cases hteam : getUserTeamID db authorID with
  | none => simp [hteam]
  | some teamID =>
    simp only [hteam] at h ⊢
    by_cases hex : db.prs.any (fun p => p.id == prID) = true
    · simp [hex]
    · simp only [if_neg hex] at h
      exact absurd h (by simp)

/-- C7: PR creation, single reassignment, and the team deactivation cascade
(with its successive in-PR replacements) all preserve the invariants that a
PR's reviewer set has no duplicate user and never contains the PR's author. -/
theorem claim7_invariants (db : DB) (hwf : WF db) (hrev : RevSetsOK db) :
    (∀ prID prName authorID now rng,
        RevSetsOK (createPR db prID prName authorID now rng).1)
    ∧ (∀ prID oldID rng, RevSetsOK (reassignReviewer db prID oldID rng).1)
    ∧ (∀ teamName rng, RevSetsOK (deactivateTeam db teamName rng).1) := by
  obtain ⟨husers, hprs, hrevpr, hrevuser⟩ := hwf
  obtain ⟨hnd, hna⟩ := hrev
  refine ⟨?_, ?_, ?_⟩
  · intro prID prName authorID now rng
    cases hres : (createPR db prID prName authorID now rng).2 with
    | error e =>
      rw [createPR_err db prID prName authorID now rng e hres]
      exact ⟨hnd, hna⟩
    | ok pr =>
      have h : createPR db prID prName authorID now rng =
          ((createPR db prID prName authorID now rng).1, Except.ok pr) := by
        rw [← hres]
      obtain ⟨teamID, hteam, hex, hpr, hdbprs, hdbrev, hdbusers, hdbteams⟩ :=
        createPR_ok db prID prName authorID now rng
          (createPR db prID prName authorID now rng).1 pr h
      have hqrows : ∀ q, q ≠ prID →
          getReviewerIDs (createPR db prID prName authorID now rng).1 q =
            getReviewerIDs db q := by
        intro q hq
        unfold getReviewerIDs
        rw [hdbrev, List.filter_append, insertedRows_other _ _ _ hq]
        simp
      have hnewrows : getReviewerIDs (createPR db prID prName authorID now rng).1 prID =
          getRandomActiveReviewers db teamID [authorID] 2 rng := by
        unfold getReviewerIDs
        rw [hdbrev, List.filter_append, List.map_append, revRows_of_insert]
        have hold := getReviewerIDs_eq_nil_of_absent db prID hrevpr
          (by simpa using hex)
        unfold getReviewerIDs at hold
        rw [hold]
        rfl
      constructor
      · intro p' hp'
        rw [hdbprs] at hp'
        rcases List.mem_append.mp hp' with hl | hl
        · have hne : p'.id ≠ prID := by
            have := List.any_eq_false.mp hex p' hl
            simpa using this
          rw [hqrows p'.id hne]
          exact hnd p' hl
        · have hp'eq : p' = { pr with reviewerIDs := [] } := by simpa using hl
          have hpid : p'.id = prID := by rw [hp'eq, hpr]
          rw [hpid, hnewrows]
          exact gRAR_nodup db teamID [authorID] 2 rng husers
      · intro p' hp'
        rw [hdbprs] at hp'
        rcases List.mem_append.mp hp' with hl | hl
        · have hne : p'.id ≠ prID := by
            have := List.any_eq_false.mp hex p' hl
            simpa using this
          rw [hqrows p'.id hne]
          exact hna p' hl
        · have hp'eq : p' = { pr with reviewerIDs := [] } := by simpa using hl
          have hpid : p'.id = prID := by rw [hp'eq, hpr]
          have hauth : p'.authorId = authorID := by rw [hp'eq, hpr]
          rw [hpid, hnewrows, hauth]
          intro hmem
          obtain ⟨u, hu, huid, hut, hua, hexcl⟩ := mem_eligiblePool.mp
            (gRAR_mem db teamID [authorID] 2 rng authorID hmem)
          exact hexcl (List.mem_singleton.mpr rfl)
  · intro prID oldID rng
    unfold reassignReviewer
    cases hval : validateAndFindReplacement db prID oldID rng with
    | error e => exact ⟨hnd, hna⟩
    | ok v =>
      obtain ⟨c, pr0⟩ := v
      obtain ⟨hfind, hst, hold, teamID, hteam, hsel⟩ :=
        validate_ok db prID oldID rng c pr0 hval
      obtain ⟨u, hu, huid, hut, hua, hexcl⟩ := mem_eligiblePool.mp
        (gRAR_mem db teamID (excludeIDs pr0 (getReviewerIDs db prID)) 1 rng c hsel)
      have hccur : c ∉ getReviewerIDs db prID :=
        fun hc => hexcl (mem_excludeIDs.mpr (Or.inl hc))
      have hcauth : c ≠ pr0.authorId :=
        fun hc => hexcl (mem_excludeIDs.mpr (Or.inr hc))
      have hf' : db.prs.find? (fun p => p.id == prID) = some pr0 := hfind
      have hpr0mem : pr0 ∈ db.prs := List.mem_of_find?_eq_some hf'
      have hpr0id : pr0.id = prID := by simpa using List.find?_some hf'
      show RevSetsOK (replaceReviewer db prID oldID c)
      constructor
      · intro p' hp'
        by_cases hpq : p'.id = prID
        · have hcurnd : (getReviewerIDs db prID).Nodup := by
            rw [← hpr0id]
            exact hnd pr0 hpr0mem
          rw [hpq, getReviewerIDs_replaceReviewer_same, List.nodup_append]
          refine ⟨hcurnd.filter _, List.nodup_singleton c, ?_⟩
          intro a ha hb
          have hac : a = c := by simpa using hb
          rw [hac] at ha
          exact hccur (List.mem_filter.mp ha).1
        · rw [getReviewerIDs_replaceReviewer_other db prID p'.id oldID c hpq]
          exact hnd p' hp'
      · intro p' hp'
        by_cases hpq : p'.id = prID
        · have hp'pr0 : p' = pr0 := List.inj_on_of_nodup_map hprs hp' hpr0mem
            (by rw [hpq, hpr0id])
          rw [hpq, getReviewerIDs_replaceReviewer_same]
          intro hmem
          rcases List.mem_append.mp hmem with hl | hl
          · have := (List.mem_filter.mp hl).1
            exact hna p' hp' (by rwa [hpq])
          · have : p'.authorId = c := by simpa using hl
            rw [hp'pr0] at this
            exact hcauth this.symm
        · rw [getReviewerIDs_replaceReviewer_other db prID p'.id oldID c hpq]
          exact hna p' hp'
  · intro teamName rng
    obtain ⟨q1, q2, q3⟩ := deactivateTeam_props db teamName rng
      ⟨husers, hprs, hrevpr, hrevuser⟩ ⟨hnd, hna⟩
    constructor
    · intro p hp
      rw [q3] at hp
      exact (q2 p hp).1
    · intro p hp
      rw [q3] at hp
      exact (q2 p hp).2

/-- Witness for C7 at dbW. -/
theorem claim7_invariants_witness :
    WF dbW ∧ RevSetsOK dbW
    ∧ ((∀ prID prName authorID now rng,
          RevSetsOK (createPR dbW prID prName authorID now rng).1)
      ∧ (∀ prID oldID rng, RevSetsOK (reassignReviewer dbW prID oldID rng).1)
      ∧ (∀ teamName rng, RevSetsOK (deactivateTeam dbW teamName rng).1)) :=
  ⟨by unfold WF; decide, by unfold RevSetsOK; decide,
    claim7_invariants dbW (by unfold WF; decide) (by unfold RevSetsOK; decide)⟩

/-- C6 counterexample: in dbNoCand the cascade finds no replacement for the
deactivated reviewer r1, and contrary to the claim the slot is not left
vacant: the operation commits with counts (1, 1) while r1 — now inactive —
is still the reviewer of the open PR p, whose reviewer set has exactly the
size it had before, not fewer. -/
theorem claim6_counterexample :
    (deactivateTeam dbNoCand "alpha" (fun _ _ => 0)).2 = Except.ok (1, 1)
    ∧ getReviewerIDs (deactivateTeam dbNoCand "alpha" (fun _ _ => 0)).1 "p" = ["r1"]
    ∧ getReviewerIDs dbNoCand "p" = ["r1"]
    ∧ userIsActive (deactivateTeam dbNoCand "alpha" (fun _ _ => 0)).1 "r1" = false
    ∧ ¬ ((getReviewerIDs (deactivateTeam dbNoCand "alpha" (fun _ _ => 0)).1 "p").length
        < (getReviewerIDs dbNoCand "p").length) :=
  ⟨rfl, rfl, rfl, rfl, by decide⟩

/-- C6 (amended): a missing replacement during the cascade is tolerated per
slot — DeactivateTeam never propagates NoCandidate (its only error is
NotFound for an unknown team), the cascade continues and the operation
commits and reports its counts — but the unfilled slot is not vacated: the
deactivated reviewer row stays in place, and every PR keeps exactly as many
reviewer rows as before the call. -/
theorem claim6_noCandidate_tolerated (db : DB) (teamName : String)
    (rng : Nat → Nat → Nat) (hwf : WF db) (hrev : RevSetsOK db) :
    (∀ e, (deactivateTeam db teamName rng).2 = Except.error e → e = AppError.notFound)
    ∧ (∀ team, getTeamByName db teamName = some team →
        ∃ c1 c2, (deactivateTeam db teamName rng).2 = Except.ok (c1, c2))
    ∧ (∀ q, (getReviewerIDs (deactivateTeam db teamName rng).1 q).length =
        (getReviewerIDs db q).length) :=
  ⟨(deactivateTeam_no_other_error db teamName rng).1,
    (deactivateTeam_no_other_error db teamName rng).2,
    (deactivateTeam_props db teamName rng hwf hrev).1⟩

/-- Witness for the amended C6 at dbNoCand. -/
theorem claim6_noCandidate_tolerated_witness :
    WF dbNoCand ∧ RevSetsOK dbNoCand
    ∧ ((∀ e, (deactivateTeam dbNoCand "alpha" (fun _ _ => 0)).2 = Except.error e →
          e = AppError.notFound)
      ∧ (∀ team, getTeamByName dbNoCand "alpha" = some team →
          ∃ c1 c2, (deactivateTeam dbNoCand "alpha" (fun _ _ => 0)).2 =
            Except.ok (c1, c2))
      ∧ (∀ q, (getReviewerIDs (deactivateTeam dbNoCand "alpha" (fun _ _ => 0)).1 q).length =
          (getReviewerIDs dbNoCand q).length)) :=
  ⟨by unfold WF; decide, by unfold RevSetsOK; decide,
    claim6_noCandidate_tolerated dbNoCand "alpha" (fun _ _ => 0)
      (by unfold WF; decide) (by unfold RevSetsOK; decide)⟩

/-- C9 counterexample: deactivating team alpha of dbPool deactivates r1 and
u3 inside the transaction, yet the cascade still selects u3 as r1's
replacement, because GetRandomActiveReviewers runs on the pool connection
and sees the pre-transaction state — the candidates-are-active check is not
performed inside the transaction that performs the mutation.  The committed
state therefore has the inactive u3 assigned as a reviewer, which would be
impossible if the check were transactional. -/
theorem claim9_counterexample :
    userIsActive dbPool "u3" = true
    ∧ (deactivateTeam dbPool "alpha" (fun _ _ => 0)).2 = Except.ok (2, 1)
    ∧ getReviewerIDs (deactivateTeam dbPool "alpha" (fun _ _ => 0)).1 "p" = ["u3"]
    ∧ userIsActive (deactivateTeam dbPool "alpha" (fun _ _ => 0)).1 "u3" = false :=
  ⟨rfl, rfl, rfl, rfl⟩

/-- C9 (amended): the locked PR read, the reviewer-list read and all writes
are transactional, but candidate selection reads the connection pool, which
sees the state committed before the transaction began: every reviewer newly
assigned by DeactivateTeam was active in the pre-call state, though possibly
already deactivated in the committed result. -/
theorem claim9_pool_reads (db : DB) (teamName : String) (rng : Nat → Nat → Nat)
    (prID x : String)
    (h1 : x ∈ getReviewerIDs (deactivateTeam db teamName rng).1 prID)
    (h2 : x ∉ getReviewerIDs db prID) :
    ∃ u ∈ db.users, u.id = x ∧ u.isActive = true := by
  obtain ⟨r, hr, hrpid, hruid⟩ := mem_getReviewerIDs.mp h1
  rcases deactivateTeam_rows db teamName rng r hr with hmem | ⟨u, hu, huid, hua⟩
  · exact absurd (mem_getReviewerIDs.mpr ⟨r, hmem, hrpid, hruid⟩) h2
  · exact ⟨u, hu, by rw [huid, hruid], hua⟩

/-- Witness for the amended C9 at dbPool: the newly assigned u3 was active
before the call. -/
theorem claim9_pool_reads_witness :
    "u3" ∈ getReviewerIDs (deactivateTeam dbPool "alpha" (fun _ _ => 0)).1 "p"
    ∧ "u3" ∉ getReviewerIDs dbPool "p"
    ∧ ∃ u ∈ dbPool.users, u.id = "u3" ∧ u.isActive = true :=
  ⟨by decide, by decide, claim9_pool_reads dbPool "alpha" (fun _ _ => 0) "p" "u3"
    (by decide) (by decide)⟩

/-! Lemmas about the team/user upsert. -/

theorem filter_map_upsert_none (l : List User) (u : User)
    (h : ∀ v ∈ l, v.id ≠ u.id) :
    (l.map (fun v => if v.id == u.id then u else v)).filter
      (fun v : User => v.id == u.id) = [] := by
  induction l with
  | nil => rfl
  | cons v t ih =>
    have hv := h v (List.mem_cons_self _ _)
    rw [List.map_cons, if_neg (by simpa using hv),
      List.filter_cons_of_neg (by simpa using hv)]
    exact ih (fun w hw => h w (List.mem_cons_of_mem _ hw))

theorem filter_map_upsert_some :
    ∀ (l : List User) (u : User), (l.map User.id).Nodup →
      l.any (fun v => v.id == u.id) = true →
      (l.map (fun v => if v.id == u.id then u else v)).filter
        (fun v : User => v.id == u.id) = [u] := by
  intro l
  induction l with
  | nil => intro u _ hany; simp at hany
  | cons v t ih =>
    intro u hnd hany
    have hnd' : (v.id :: t.map User.id).Nodup := by simpa using hnd
    by_cases hv : v.id = u.id
    · rw [List.map_cons, if_pos (by simpa using hv),
        List.filter_cons_of_pos (by simp)]
      have hnone : ∀ w ∈ t, w.id ≠ u.id := by
        intro w hw hc
        exact (List.nodup_cons.mp hnd').1
          (by rw [hv, ← hc]; exact List.mem_map.mpr ⟨w, hw, rfl⟩)
      rw [filter_map_upsert_none t u hnone]
    · rw [List.map_cons, if_neg (by simpa using hv),
        List.filter_cons_of_neg (by simpa using hv)]
      refine ih u (List.nodup_cons.mp hnd').2 ?_
      have : ¬ (v.id == u.id) = true := by simpa using hv
      simpa [this] using hany

theorem upsertUser_id_map (l : List User) (u : User) :
    (l.map (fun v => if v.id == u.id then u else v)).map User.id = l.map User.id := by
  rw [List.map_map]
  apply List.map_congr_left
  intro v _
  by_cases h : v.id = u.id
  · simp [Function.comp, h]
  · simp [Function.comp, h]

theorem upsertUser_nodup (db : DB) (u : User)
    (hnd : (db.users.map User.id).Nodup) :
    ((upsertUser db u).users.map User.id).Nodup := by
  unfold upsertUser
  by_cases h : db.users.any (fun v => v.id == u.id) = true
  · rw [if_pos h]
    show ((db.users.map _).map User.id).Nodup
    rw [upsertUser_id_map]
    exact hnd
  · rw [if_neg h]
    show ((db.users ++ [u]).map User.id).Nodup
    rw [List.map_append, List.nodup_append]
    refine ⟨hnd, List.nodup_singleton _, ?_⟩
    intro a ha hb
    have hau : a = u.id := by simpa using hb
    obtain ⟨v, hv, hvid⟩ := List.mem_map.mp ha
    have hvne : ¬ (v.id == u.id) = true := fun hc =>
      h (List.any_eq_true.mpr ⟨v, hv, hc⟩)
    have hvu : v.id = u.id := hvid.trans hau
    exact hvne (by simp [hvu])

theorem upsertUser_filter_self (db : DB) (u : User)
    (hnd : (db.users.map User.id).Nodup) :
    (upsertUser db u).users.filter (fun v : User => v.id == u.id) = [u] := by
  unfold upsertUser
  by_cases h : db.users.any (fun v => v.id == u.id) = true
  · rw [if_pos h]
    exact filter_map_upsert_some db.users u hnd h
  · rw [if_neg h]
    show (db.users ++ [u]).filter _ = [u]
    rw [List.filter_append]
    rw [List.filter_eq_nil_iff.mpr (fun v hv hc =>
      h (List.any_eq_true.mpr ⟨v, hv, hc⟩))]
    simp

theorem upsertUser_filter_other (db : DB) (u : User) (q : String) (hq : q ≠ u.id) :
    (upsertUser db u).users.filter (fun v : User => v.id == q) =
      db.users.filter (fun v : User => v.id == q) := by
  unfold upsertUser
  by_cases h : db.users.any (fun v => v.id == u.id) = true
  · rw [if_pos h]
    show (db.users.map _).filter _ = _
    induction db.users with
    | nil => rfl
    | cons v t ih =>
      by_cases hv : v.id = u.id
      · rw [List.map_cons, if_pos (by simpa using hv),
          List.filter_cons_of_neg (by simpa using Ne.symm hq),
          List.filter_cons_of_neg (by rw [hv]; simpa using Ne.symm hq)]
        exact ih
      · rw [List.map_cons, if_neg (by simpa using hv)]
        simp only [List.filter_cons, ih]
  · rw [if_neg h]
    show (db.users ++ [u]).filter _ = _
    rw [List.filter_append,
      List.filter_cons_of_neg (by simpa using Ne.symm hq)]
    simp

theorem upsertTeamMembers_cons (db : DB) (teamID : Nat) (m : TeamMember)
    (rest : List TeamMember) :
    upsertTeamMembers db teamID (m :: rest) =
      upsertTeamMembers (upsertUser db (User.mk m.userId m.username teamID m.isActive))
        teamID rest := rfl

theorem upsertTeamMembers_nodup (teamID : Nat) :
    ∀ (members : List TeamMember) (db : DB), (db.users.map User.id).Nodup →
      ((upsertTeamMembers db teamID members).users.map User.id).Nodup := by
  intro members
  induction members with
  | nil => intro db h; exact h
  | cons m rest ih =>
    intro db h
    rw [upsertTeamMembers_cons]
    exact ih _ (upsertUser_nodup db _ h)

theorem upsertTeamMembers_other (teamID : Nat) :
    ∀ (members : List TeamMember) (db : DB) (q : String),
      (∀ m ∈ members, q ≠ m.userId) →
      (upsertTeamMembers db teamID members).users.filter (fun v : User => v.id == q) =
        db.users.filter (fun v : User => v.id == q) := by
  intro members
  induction members with
  | nil => intro db q _; rfl
  | cons m rest ih =>
    intro db q hq
    rw [upsertTeamMembers_cons,
      ih _ q (fun m2 hm2 => hq m2 (List.mem_cons_of_mem _ hm2)),
      upsertUser_filter_other db _ q (hq m (List.mem_cons_self _ _))]

theorem upsertTeamMembers_self (teamID : Nat) :
    ∀ (members : List TeamMember) (db : DB),
      (db.users.map User.id).Nodup →
      (members.map TeamMember.userId).Nodup →
      ∀ m ∈ members,
        (upsertTeamMembers db teamID members).users.filter
          (fun v : User => v.id == m.userId) =
          [User.mk m.userId m.username teamID m.isActive] := by
  intro members
  induction members with
  | nil => intro db _ _ m hm; simp at hm
  | cons m0 rest ih =>
    intro db hnd hmnd m hm
    have hmnd' : (m0.userId :: rest.map TeamMember.userId).Nodup := by simpa using hmnd
    rw [upsertTeamMembers_cons]
    rcases List.mem_cons.mp hm with rfl | hm2
    · rw [upsertTeamMembers_other teamID rest _ m.userId (fun m2 hm2 hc =>
        (List.nodup_cons.mp hmnd').1 (hc ▸ List.mem_map.mpr ⟨m2, hm2, rfl⟩))]
      exact upsertUser_filter_self db
        (User.mk m.userId m.username teamID m.isActive) hnd
    · exact ih _ (upsertUser_nodup db _ hnd) (List.nodup_cons.mp hmnd').2 m hm2

/-- C10: with a fresh team name, CreateTeamWithUsers succeeds even when a
listed member id already exists in the store: that user's row is overwritten
— username, team_id (moved into the new team) and is_active all take the
request's values; only a duplicate team name fails, with AlreadyExists. -/
theorem claim10_createTeamWithUsers (db : DB) (teamName : String)
    (members : List TeamMember)
    (husers : (db.users.map User.id).Nodup)
    (hmembers : (members.map TeamMember.userId).Nodup) :
    ((∀ t ∈ db.teams, t.name ≠ teamName) →
        (createTeamWithUsers db teamName members).2 =
          Except.ok (Team.mk db.nextTeamId teamName)
        ∧ ∀ m ∈ members,
            (createTeamWithUsers db teamName members).1.users.filter
              (fun v : User => v.id == m.userId) =
              [User.mk m.userId m.username db.nextTeamId m.isActive])
    ∧ ((∃ t ∈ db.teams, t.name = teamName) →
        createTeamWithUsers db teamName members =
          (db, Except.error AppError.alreadyExists)) := by
  constructor
  · intro hfresh
    have hany : db.teams.any (fun t => t.name == teamName) = false := by
      rw [List.any_eq_false]
      intro t ht
      simpa using hfresh t ht
    have hins : insertTeam db teamName = Except.ok
        ({ db with
            teams := db.teams ++ [⟨db.nextTeamId, teamName⟩]
            nextTeamId := db.nextTeamId + 1 }, Team.mk db.nextTeamId teamName) := by
      unfold insertTeam
      rw [if_neg (by simp [hany])]
    constructor
    · simp [createTeamWithUsers, hins]
    · intro m hm
      have hpos : members.length > 0 :=
        List.length_pos.mpr (List.ne_nil_of_mem hm)
      have hstate : (createTeamWithUsers db teamName members).1 =
          upsertTeamMembers
            { db with
              teams := db.teams ++ [⟨db.nextTeamId, teamName⟩]
              nextTeamId := db.nextTeamId + 1 }
            db.nextTeamId members := by
        simp [createTeamWithUsers, hins, hpos]
      rw [hstate]
      exact upsertTeamMembers_self db.nextTeamId members
        { db with
          teams := db.teams ++ [⟨db.nextTeamId, teamName⟩]
          nextTeamId := db.nextTeamId + 1 }
        husers hmembers m hm
  · intro hdup
    have hany : db.teams.any (fun t => t.name == teamName) = true := by
      rw [List.any_eq_true]
      obtain ⟨t, ht, hname⟩ := hdup
      exact ⟨t, ht, by simpa using hname⟩
    have hins : insertTeam db teamName = Except.error AppError.alreadyExists := by
      unfold insertTeam
      rw [if_pos (by simp [hany])]
    simp [createTeamWithUsers, hins]

/-- Witness for C10 at dbW: user b already exists and is moved into the new
team gamma with the listed username and activity. -/
theorem claim10_createTeamWithUsers_witness :
    (dbW.users.map User.id).Nodup
    ∧ ([TeamMember.mk "b" "B2" false].map TeamMember.userId).Nodup
    ∧ (∀ t ∈ dbW.teams, t.name ≠ "gamma")
    ∧ (createTeamWithUsers dbW "gamma" [TeamMember.mk "b" "B2" false]).2 =
        Except.ok (Team.mk dbW.nextTeamId "gamma")
    ∧ ∀ m ∈ [TeamMember.mk "b" "B2" false],
        (createTeamWithUsers dbW "gamma" [TeamMember.mk "b" "B2" false]).1.users.filter
          (fun v : User => v.id == m.userId) =
          [User.mk m.userId m.username dbW.nextTeamId m.isActive] :=
  ⟨by decide, by decide, by decide,
    ((claim10_createTeamWithUsers dbW "gamma" [TeamMember.mk "b" "B2" false]
      (by decide) (by decide)).1 (by decide)).1,
    ((claim10_createTeamWithUsers dbW "gamma" [TeamMember.mk "b" "B2" false]
      (by decide) (by decide)).1 (by decide)).2⟩

end PRReviewer
